import Mathlib

set_option maxHeartbeats 1000000
set_option linter.unnecessarySeqFocus false
set_option linter.unreachableTactic false
set_option linter.unusedTactic false

/-- Modelled from the spec: the geometric primitive (spec section 3, Vector) of the
aerolattice solver, whose implementation is not present in the repository sources.
An immutable triple of real components in a right-handed frame
(x chordwise positive aft, y spanwise, z vertical). -/
structure Vec3 where
  x : ℝ
  y : ℝ
  z : ℝ

theorem Vec3.ext_comp (a b : Vec3) (hx : a.x = b.x) (hy : a.y = b.y) (hz : a.z = b.z) :
    a = b := by
  cases a; cases b; simp_all

instance : Add Vec3 := ⟨fun a b => ⟨a.x + b.x, a.y + b.y, a.z + b.z⟩⟩

instance : Sub Vec3 := ⟨fun a b => ⟨a.x - b.x, a.y - b.y, a.z - b.z⟩⟩

instance : Neg Vec3 := ⟨fun a => ⟨-a.x, -a.y, -a.z⟩⟩

instance : SMul ℝ Vec3 := ⟨fun c a => ⟨c * a.x, c * a.y, c * a.z⟩⟩

instance : Zero Vec3 := ⟨⟨0, 0, 0⟩⟩

@[simp] theorem Vec3.add_x (a b : Vec3) : (a + b).x = a.x + b.x := rfl

@[simp] theorem Vec3.add_y (a b : Vec3) : (a + b).y = a.y + b.y := rfl

@[simp] theorem Vec3.add_z (a b : Vec3) : (a + b).z = a.z + b.z := rfl

@[simp] theorem Vec3.sub_x (a b : Vec3) : (a - b).x = a.x - b.x := rfl

@[simp] theorem Vec3.sub_y (a b : Vec3) : (a - b).y = a.y - b.y := rfl

@[simp] theorem Vec3.sub_z (a b : Vec3) : (a - b).z = a.z - b.z := rfl

@[simp] theorem Vec3.neg_x (a : Vec3) : (-a).x = -a.x := rfl

@[simp] theorem Vec3.neg_y (a : Vec3) : (-a).y = -a.y := rfl

@[simp] theorem Vec3.neg_z (a : Vec3) : (-a).z = -a.z := rfl

@[simp] theorem Vec3.smul_x (c : ℝ) (a : Vec3) : (c • a).x = c * a.x := rfl

@[simp] theorem Vec3.smul_y (c : ℝ) (a : Vec3) : (c • a).y = c * a.y := rfl

@[simp] theorem Vec3.smul_z (c : ℝ) (a : Vec3) : (c • a).z = c * a.z := rfl

@[simp] theorem Vec3.zero_x : (0 : Vec3).x = 0 := rfl

@[simp] theorem Vec3.zero_y : (0 : Vec3).y = 0 := rfl

@[simp] theorem Vec3.zero_z : (0 : Vec3).z = 0 := rfl

/-- Modelled from the spec: dot product of the geometric primitive. -/
def vdot (a b : Vec3) : ℝ := a.x * b.x + a.y * b.y + a.z * b.z

/-- Modelled from the spec: cross product of the geometric primitive. -/
def vcross (a b : Vec3) : Vec3 :=
  ⟨a.y * b.z - a.z * b.y, a.z * b.x - a.x * b.z, a.x * b.y - a.y * b.x⟩

/-- Modelled from the spec: squared Euclidean norm. -/
def vnormSq (a : Vec3) : ℝ := vdot a a

/-- Modelled from the spec: Euclidean norm of the geometric primitive. -/
noncomputable def vnorm (a : Vec3) : ℝ := Real.sqrt (vnormSq a)

/-- Modelled from the spec: unit-normalization of a vector; with total real
arithmetic a zero vector normalizes to zero. -/
noncomputable def vhat (a : Vec3) : Vec3 := (vnorm a)⁻¹ • a

/-- Reflection through the x-z plane (spanwise mirror), used to state symmetry. -/
def mirrorV (a : Vec3) : Vec3 := ⟨a.x, -a.y, a.z⟩

@[simp] theorem mirrorV_x (a : Vec3) : (mirrorV a).x = a.x := rfl

@[simp] theorem mirrorV_y (a : Vec3) : (mirrorV a).y = -a.y := rfl

@[simp] theorem mirrorV_z (a : Vec3) : (mirrorV a).z = a.z := rfl

theorem mirrorV_add (a b : Vec3) : mirrorV (a + b) = mirrorV a + mirrorV b := by
  apply Vec3.ext_comp <;> simp <;> ring

theorem mirrorV_sub (a b : Vec3) : mirrorV (a - b) = mirrorV a - mirrorV b := by
  apply Vec3.ext_comp <;> simp <;> ring

theorem mirrorV_neg (a : Vec3) : mirrorV (-a) = -(mirrorV a) := by
  apply Vec3.ext_comp <;> simp

theorem mirrorV_smul (c : ℝ) (a : Vec3) : mirrorV (c • a) = c • mirrorV a := by
  apply Vec3.ext_comp <;> simp <;> ring

theorem mirrorV_zero : mirrorV (0 : Vec3) = 0 := by
  apply Vec3.ext_comp <;> simp

theorem vdot_mirror (a b : Vec3) : vdot (mirrorV a) (mirrorV b) = vdot a b := by
  simp [vdot, mirrorV]

theorem vnormSq_mirror (a : Vec3) : vnormSq (mirrorV a) = vnormSq a := by
  simp [vnormSq, vdot_mirror]

theorem vnorm_mirror (a : Vec3) : vnorm (mirrorV a) = vnorm a := by
  simp [vnorm, vnormSq_mirror]

theorem vcross_mirror_swap (a b : Vec3) :
    vcross (mirrorV a) (mirrorV b) = mirrorV (vcross b a) := by
  apply Vec3.ext_comp <;> simp [vcross, mirrorV] <;> ring

theorem vhat_mirror (a : Vec3) : vhat (mirrorV a) = mirrorV (vhat a) := by
  rw [vhat, vhat, vnorm_mirror, mirrorV_smul]

theorem mirrorV_of_y_zero (a : Vec3) (h : a.y = 0) : mirrorV a = a := by
  apply Vec3.ext_comp <;> simp [h]

theorem vcross_y_zero_neg_mirror (u w : Vec3) (h : u.y = 0) :
    vcross u (-(mirrorV w)) = mirrorV (vcross u w) := by
  apply Vec3.ext_comp <;> simp [vcross, mirrorV, h] <;> ring

theorem vcross_anticomm (a b : Vec3) : vcross a b = -(vcross b a) := by
  apply Vec3.ext_comp <;> simp [vcross] <;> ring

theorem vnormSq_neg (a : Vec3) : vnormSq (-a) = vnormSq a := by
  simp [vnormSq, vdot]

theorem vnorm_neg (a : Vec3) : vnorm (-a) = vnorm a := by
  rw [vnorm, vnorm, vnormSq_neg]

theorem smul_neg_vec (c : ℝ) (a : Vec3) : c • (-a) = -(c • a) := by
  apply Vec3.ext_comp <;> simp

theorem vdot_sub_swap_left (a b c : Vec3) : vdot (a - b) c = -vdot (b - a) c := by
  simp [vdot]; ring

/-- Modelled from the spec: regularization cutoff for near-singular Biot-Savart
induction (spec section 4.3), absent from the repository sources. -/
noncomputable def epsC : ℝ := 1 / 10 ^ 10

/-- Modelled from the spec: Biot-Savart velocity induced at point p by a straight
bound vortex filament of unit strength from p1 to p2 (closed form for a finite
segment, with a cutoff when the evaluation point is nearly on the filament).
The solver implementation is absent from the repository sources. -/
noncomputable def segVel (p1 p2 p : Vec3) : Vec3 :=
  if vnormSq (vcross (p - p1) (p - p2)) ≤ epsC then 0
  else ((vdot (p2 - p1) (p - p1) / vnorm (p - p1) -
         vdot (p2 - p1) (p - p2) / vnorm (p - p2)) /
        (4 * Real.pi * vnormSq (vcross (p - p1) (p - p2)))) • vcross (p - p1) (p - p2)

/-- Modelled from the spec: Biot-Savart velocity induced at point p by a
semi-infinite trailing vortex leg of unit strength starting at a and extending
downstream in direction u (spec section 4.3). -/
noncomputable def legVel (a u p : Vec3) : Vec3 :=
  if vnormSq (vcross u (p - a)) ≤ epsC then 0
  else ((1 + vdot u (p - a) / vnorm (p - a)) /
        (4 * Real.pi * vnormSq (vcross u (p - a)))) • vcross u (p - a)

/-- Modelled from the spec: velocity induced by a unit-strength horseshoe vortex:
bound segment from a to b plus the two semi-infinite trailing legs from the
endpoints, oriented downstream along u (spec section 4.3 and glossary). -/
noncomputable def horseshoe (a b u p : Vec3) : Vec3 :=
  segVel a b p + legVel b u p - legVel a u p

theorem segVel_mirror (p1 p2 p : Vec3) :
    segVel (mirrorV p2) (mirrorV p1) (mirrorV p) = mirrorV (segVel p1 p2 p) := by
  unfold segVel
  rw [show mirrorV p - mirrorV p2 = mirrorV (p - p2) from (mirrorV_sub p p2).symm,
      show mirrorV p - mirrorV p1 = mirrorV (p - p1) from (mirrorV_sub p p1).symm,
      show mirrorV p1 - mirrorV p2 = mirrorV (p1 - p2) from (mirrorV_sub p1 p2).symm,
      vcross_mirror_swap, vnormSq_mirror, vdot_mirror, vdot_mirror, vnorm_mirror, vnorm_mirror]
  split_ifs with h
  · exact mirrorV_zero.symm
  · rw [mirrorV_smul]
    congr 1
    rw [vdot_sub_swap_left p1 p2 (p - p2), vdot_sub_swap_left p1 p2 (p - p1)]
    ring

theorem legVel_mirror (a u p : Vec3) (hu : mirrorV u = u) :
    legVel (mirrorV a) u (mirrorV p) = -(mirrorV (legVel a u p)) := by
  unfold legVel
  rw [show mirrorV p - mirrorV a = mirrorV (p - a) from (mirrorV_sub p a).symm]
  have hc : vcross u (mirrorV (p - a)) = -(mirrorV (vcross u (p - a))) := by
    calc vcross u (mirrorV (p - a)) = vcross (mirrorV u) (mirrorV (p - a)) := by rw [hu]
      _ = mirrorV (vcross (p - a) u) := vcross_mirror_swap _ _
      _ = mirrorV (-(vcross u (p - a))) := by rw [← vcross_anticomm]
      _ = -(mirrorV (vcross u (p - a))) := mirrorV_neg _
  have hd : vdot u (mirrorV (p - a)) = vdot u (p - a) := by
    calc vdot u (mirrorV (p - a)) = vdot (mirrorV u) (mirrorV (p - a)) := by rw [hu]
      _ = vdot u (p - a) := vdot_mirror _ _
  rw [hc, hd, vnormSq_neg, vnormSq_mirror, vnorm_mirror]
  split_ifs with h
  · apply Vec3.ext_comp <;> simp [mirrorV]
  · rw [smul_neg_vec, mirrorV_smul]

theorem horseshoe_mirror (a b u p : Vec3) (hu : mirrorV u = u) :
    horseshoe (mirrorV b) (mirrorV a) u (mirrorV p) = mirrorV (horseshoe a b u p) := by
  unfold horseshoe
  rw [segVel_mirror a b p, legVel_mirror a u p hu, legVel_mirror b u p hu]
  apply Vec3.ext_comp <;> simp <;> ring

/-- Modelled from the spec: linear interpolation between two nodes, as used by
the lofting stage (spec section 4.1). -/
noncomputable def lerpAt (p q : ℝ × ℝ) (y : ℝ) : ℝ :=
  p.2 + (y - p.1) / (q.1 - p.1) * (q.2 - p.2)

/-- Modelled from the spec: piecewise linear interpolation across the ordered rib
node list (geometry lofting, spec section 4.1), absent from the repository
sources: scan for the first segment whose right node is at or past the query
coordinate and interpolate linearly inside it. -/
noncomputable def interp1 : List (ℝ × ℝ) → ℝ → ℝ
  | [], _ => 0
  | [p], _ => p.2
  | p :: q :: rest, y => if y ≤ q.1 then lerpAt p q y else interp1 (q :: rest) y

/-- Spanwise mirror of an interpolation node. -/
def mirrorPt (p : ℝ × ℝ) : ℝ × ℝ := (-p.1, p.2)

theorem lerpAt_left (p q : ℝ × ℝ) : lerpAt p q p.1 = p.2 := by
  simp [lerpAt]

theorem lerpAt_right (p q : ℝ × ℝ) (h : p.1 ≠ q.1) : lerpAt p q q.1 = q.2 := by
  rw [lerpAt, div_self (sub_ne_zero.mpr (Ne.symm h))]; ring

theorem interp1_all_zero : ∀ (pts : List (ℝ × ℝ)) (y : ℝ),
    (∀ r ∈ pts, r.2 = 0) → interp1 pts y = 0
  | [], _, _ => rfl
  | [p], _, h => by
    have := h p (by simp)
    simp [interp1, this]
  | p :: q :: rest, y, h => by
    rw [interp1]
    split_ifs with hy
    · have hp := h p (by simp)
      have hq := h q (by simp)
      simp [lerpAt, hp, hq]
    · exact interp1_all_zero (q :: rest) y (fun r hr => h r (by simp at hr ⊢; tauto))

theorem pairwise_fst_lt (pts : List (ℝ × ℝ)) (hs : (pts.map Prod.fst).Pairwise (· < ·))
    (i j : ℕ) (hij : i < j) (hj : j < pts.length) : pts[i].1 < pts[j].1 := by
  have h := List.pairwise_iff_getElem.mp hs i j
    (by simpa using lt_trans hij hj) (by simpa using hj) hij
  simpa using h

theorem interp1_seg (k : ℕ) : ∀ (pts : List (ℝ × ℝ)) (y : ℝ) (hk : k + 1 < pts.length),
    (pts.map Prod.fst).Pairwise (· < ·) →
    pts[k].1 ≤ y → y ≤ pts[k + 1].1 →
    interp1 pts y = lerpAt pts[k] pts[k + 1] y := by
  induction k with
  | zero =>
    intro pts y hk hsort h0 h1
    match pts, hk with
    | p :: q :: rest, _ =>
      simp only [List.getElem_cons_zero, List.getElem_cons_succ] at h0 h1 ⊢
      rw [interp1, if_pos h1]
  | succ k ih =>
    intro pts y hk hsort h0 h1
    match pts, hk with
    | p :: q :: rest, hk =>
      by_cases hy : y ≤ q.1
      · have hk0 : k = 0 := by
          by_contra hne
          have h1lt : ((p :: q :: rest) : List (ℝ × ℝ))[1].1 < ((p :: q :: rest) : List (ℝ × ℝ))[k + 1].1 :=
            pairwise_fst_lt _ hsort 1 (k + 1) (by omega) (by omega)
          simp only [List.getElem_cons_succ, List.getElem_cons_zero] at h1lt h0
          linarith
        subst hk0
        have hyq : y = q.1 := by
          simp only [List.getElem_cons_succ, List.getElem_cons_zero] at h0
          linarith
        subst hyq
        have hpq : p.1 < q.1 := by
          have := pairwise_fst_lt (p :: q :: rest) hsort 0 1 (by omega) (by omega)
          simpa using this
        rw [interp1, if_pos hy]
        simp only [List.getElem_cons_succ, List.getElem_cons_zero]
        rw [lerpAt_right p q (ne_of_lt hpq)]
        exact (lerpAt_left q _).symm
      · rw [interp1, if_neg hy]
        have hrec := ih (q :: rest) y (by simpa using Nat.lt_of_succ_lt_succ hk)
          (by
            have := hsort
            rw [List.map_cons, List.pairwise_cons] at this
            exact this.2)
          (by simpa using h0) (by simpa using h1)
        simpa using hrec

theorem seg_exists : ∀ (pts : List (ℝ × ℝ)) (y : ℝ) (hlen : 2 ≤ pts.length),
    pts[0].1 ≤ y → y ≤ pts[pts.length - 1].1 →
    ∃ k, ∃ hk : k + 1 < pts.length, pts[k].1 ≤ y ∧ y ≤ pts[k + 1].1
  | [], _, hlen => by simp at hlen
  | [p], _, hlen => by simp at hlen
  | p :: q :: rest, y, hlen => by
    intro h0 h1
    by_cases hy : y ≤ q.1
    · exact ⟨0, by simp, by simpa using h0, by simpa using hy⟩
    · match rest with
      | [] =>
        exfalso
        simp only [List.length_cons, List.length_nil] at h1
        norm_num at h1
        exact hy h1
      | r :: rest2 =>
        have h0' : ((q :: r :: rest2) : List (ℝ × ℝ))[0].1 ≤ y := by
          simpa using le_of_lt (not_le.mp hy)
        have h1' : y ≤ ((q :: r :: rest2) : List (ℝ × ℝ))[(q :: r :: rest2).length - 1].1 := by
          simpa using h1
        obtain ⟨k, hk, hka, hkb⟩ := seg_exists (q :: r :: rest2) y (by simp) h0' h1'
        exact ⟨k + 1, by simpa using Nat.succ_lt_succ hk, by simpa using hka, by simpa using hkb⟩

theorem lerpAt_mirror (p q : ℝ × ℝ) (y : ℝ) (h : p.1 < q.1) :
    lerpAt (mirrorPt q) (mirrorPt p) (-y) = lerpAt p q y := by
  have hne : q.1 - p.1 ≠ 0 := sub_ne_zero.mpr (ne_of_gt h)
  simp only [lerpAt, mirrorPt]
  rw [show -p.1 - -q.1 = q.1 - p.1 by ring]
  field_simp
  ring

theorem interp1_self_mirror (pts : List (ℝ × ℝ)) (hrev : pts.reverse = pts.map mirrorPt)
    (hsort : (pts.map Prod.fst).Pairwise (· < ·)) (hlen : 2 ≤ pts.length) (y : ℝ)
    (h0 : pts[0].1 ≤ y) (h1 : y ≤ pts[pts.length - 1].1) :
    interp1 pts (-y) = interp1 pts y := by
  obtain ⟨k, hk, hka, hkb⟩ := seg_exists pts y hlen h0 h1
  have hidx : ∀ i (hi : i < pts.length), pts[pts.length - 1 - i] = mirrorPt pts[i] := by
    intro i hi
    have hi2 : i < pts.reverse.length := by simpa using hi
    have hi3 : i < (pts.map mirrorPt).length := by simpa using hi
    have h2 := congrArg (fun l : List (ℝ × ℝ) => l[i]?) hrev
    simp only [List.getElem?_eq_getElem hi2, List.getElem?_eq_getElem hi3] at h2
    have h3 := Option.some.inj h2
    rwa [List.getElem_reverse, List.getElem_map] at h3
  have hk2 : pts.length - 2 - k < pts.length := by omega
  have hk3 : pts.length - 2 - k + 1 < pts.length := by omega
  have e1 : pts[pts.length - 2 - k] = mirrorPt pts[k + 1] := by
    have h3 := hidx (k + 1) (by omega)
    have h4 : pts.length - 1 - (k + 1) = pts.length - 2 - k := by omega
    simpa only [h4] using h3
  have e2 : pts[pts.length - 2 - k + 1] = mirrorPt pts[k] := by
    have h3 := hidx k (by omega)
    have h4 : pts.length - 1 - k = pts.length - 2 - k + 1 := by omega
    simpa only [h4] using h3
  have hkk : pts[k].1 < pts[k + 1].1 := pairwise_fst_lt pts hsort k (k + 1) (by omega) hk
  have hL : interp1 pts (-y) =
      lerpAt pts[pts.length - 2 - k] pts[pts.length - 2 - k + 1] (-y) := by
    apply interp1_seg (pts.length - 2 - k) pts (-y) (by omega) hsort
    · rw [e1]; simp only [mirrorPt]; linarith
    · rw [e2]; simp only [mirrorPt]; linarith
  have hR : interp1 pts y = lerpAt pts[k] pts[k + 1] y :=
    interp1_seg k pts y hk hsort hka hkb
  rw [hL, hR, e1, e2]
  exact lerpAt_mirror pts[k] pts[k + 1] y hkk

/-- Modelled from the spec: a cross-sectional station of the wing (spec section 3):
leading-edge position, chord length, incidence angle in degrees. The Rib class of
the aerolattice package is absent from the repository sources. -/
structure Rib where
  pos : Vec3
  chord : ℝ
  incidence : ℝ

/-- Modelled from the spec: the Airframe facade (spec sections 3 and 6): at most
one of reference chord and reference span, reference area, the two
discretization counts, the ordered rib list and a mutable angle of attack in
degrees. The Airframe class of the aerolattice package is absent from the
repository sources. -/
structure Airframe where
  c_ref : Option ℝ
  b_ref : Option ℝ
  s_ref : ℝ
  span_count : ℕ
  chord_count : ℕ
  ribs : List Rib
  aoa : ℝ

/-- Modelled from the spec: the Airframe constructor as invoked by the example
driver: only reference span, reference area, the two counts and the rib list are
supplied; the angle of attack starts at zero and is set later by assignment. -/
def mkAirframe (b s : ℝ) (sc cc : ℕ) (ribs : List Rib) : Airframe :=
  { c_ref := none, b_ref := some b, s_ref := s, span_count := sc, chord_count := cc,
    ribs := ribs, aoa := 0 }

/-- Plain attribute assignment of the angle of attack, as in the example driver. -/
def setAoa (af : Airframe) (a : ℝ) : Airframe := { af with aoa := a }

/-- Spanwise coordinates of the ribs, in list order. -/
def ribYs (af : Airframe) : List ℝ := af.ribs.map (fun r => r.pos.y)

/-- Modelled from the spec: geometry-configuration validity (spec sections 3 and
7): at least two ribs, positive chords, monotonically ordered spanwise rib
coordinates (lofting must fail rather than produce a folded mesh on a
non-monotonic rib list, spec section 4.1), positive reference area, positive
discretization counts, and exactly one of reference chord and reference span. -/
def validConfig (af : Airframe) : Prop :=
  2 ≤ af.ribs.length ∧ (∀ r ∈ af.ribs, 0 < r.chord) ∧
    (ribYs af).Chain' (· < ·) ∧ 0 < af.s_ref ∧ 0 < af.span_count ∧ 0 < af.chord_count ∧
    (af.c_ref.isSome ↔ af.b_ref.isNone)

/-- Spanwise coordinate of the first rib. -/
def spanFirst (af : Airframe) : ℝ := (ribYs af).getD 0 0

/-- Spanwise coordinate of the last rib. -/
def spanLast (af : Airframe) : ℝ := (ribYs af).getD ((ribYs af).length - 1) 0

/-- Modelled from the spec: uniform spanwise width of the lofted strips (spec
section 4.1: span_count spanwise sub-intervals across the full rib list). -/
noncomputable def dSpan (af : Airframe) : ℝ := (spanLast af - spanFirst af) / af.span_count

/-- Modelled from the spec: the k-th interpolated spanwise station, k ranging
from 0 to span_count (spec section 4.1). -/
noncomputable def stationY (af : Airframe) (k : ℕ) : ℝ := spanFirst af + k * dSpan af

/-- Spanwise coordinate of the midline of the k-th spanwise strip. -/
noncomputable def midY (af : Airframe) (k : ℕ) : ℝ :=
  spanFirst af + (k + 1 / 2) * dSpan af

/-- Modelled from the spec: piecewise linear lofting of a per-rib quantity to a
spanwise coordinate (spec section 4.1). -/
noncomputable def lofted (af : Airframe) (f : Rib → ℝ) (y : ℝ) : ℝ :=
  interp1 (af.ribs.map (fun r => (r.pos.y, f r))) y

/-- Modelled from the spec: point of the lofted surface at spanwise station k and
a given chordwise fraction of the local chord, the chord extending aft along x
from the interpolated leading edge (spec sections 4.1, 4.2 and section 3 Panel). -/
noncomputable def stationPt (af : Airframe) (k : ℕ) (c : ℝ) : Vec3 :=
  ⟨lofted af (fun r => r.pos.x) (stationY af k) +
     c * lofted af (fun r => r.chord) (stationY af k),
   stationY af k,
   lofted af (fun r => r.pos.z) (stationY af k)⟩

/-- Modelled from the spec: chordwise fraction of the quarter-chord line of
chordwise panel j (spec section 4.2). -/
noncomputable def quarterFrac (af : Airframe) (j : ℕ) : ℝ := (j + 1 / 4) / af.chord_count

/-- Modelled from the spec: chordwise fraction of the three-quarter-chord point of
chordwise panel j (spec section 4.2). -/
noncomputable def threeQuarterFrac (af : Airframe) (j : ℕ) : ℝ := (j + 3 / 4) / af.chord_count

/-- Modelled from the spec: inboard endpoint of the bound vortex of a panel. -/
noncomputable def boundA (af : Airframe) (p : Fin af.span_count × Fin af.chord_count) : Vec3 :=
  stationPt af p.1.val (quarterFrac af p.2.val)

/-- Modelled from the spec: outboard endpoint of the bound vortex of a panel. -/
noncomputable def boundB (af : Airframe) (p : Fin af.span_count × Fin af.chord_count) : Vec3 :=
  stationPt af (p.1.val + 1) (quarterFrac af p.2.val)

/-- Modelled from the spec: control point of a panel, at the three-quarter-chord
mid-span point (spec section 4.2). -/
noncomputable def ctrlPt (af : Airframe) (p : Fin af.span_count × Fin af.chord_count) : Vec3 :=
  (1 / 2 : ℝ) • (stationPt af p.1.val (threeQuarterFrac af p.2.val) +
    stationPt af (p.1.val + 1) (threeQuarterFrac af p.2.val))

/-- Modelled from the spec: local incidence of a panel in radians, lofted at the
strip midline (incidence is authored in degrees). -/
noncomputable def panelInc (af : Airframe) (p : Fin af.span_count × Fin af.chord_count) : ℝ :=
  lofted af (fun r => r.incidence) (midY af p.1.val) * Real.pi / 180

/-- Modelled from the spec: local chordwise tangent of a panel, rotated by the
local incidence (spec section 4.2). -/
noncomputable def chordDir (af : Airframe) (p : Fin af.span_count × Fin af.chord_count) : Vec3 :=
  ⟨Real.cos (panelInc af p), 0, -Real.sin (panelInc af p)⟩

/-- Modelled from the spec: local spanwise tangent of a panel, along its bound
vortex (spec section 4.2). -/
noncomputable def spanDir (af : Airframe) (p : Fin af.span_count × Fin af.chord_count) : Vec3 :=
  boundB af p - boundA af p

/-- Modelled from the spec: unit normal of a panel from the cross product of its
chordwise and spanwise tangents (spec section 4.2). -/
noncomputable def panelNormal (af : Airframe) (p : Fin af.span_count × Fin af.chord_count) : Vec3 :=
  vhat (vcross (chordDir af p) (spanDir af p))

/-- Angle of attack in radians (angle of attack is authored in degrees). -/
noncomputable def alphaRad (af : Airframe) : ℝ := af.aoa * Real.pi / 180

/-- Modelled from the spec: unit free-stream direction, the x axis rotated by the
angle of attack (spec section 4.4). -/
noncomputable def freestream (af : Airframe) : Vec3 :=
  ⟨Real.cos (alphaRad af), 0, Real.sin (alphaRad af)⟩

/-- Direction normal to the free stream in the x-z plane, along which the induced
downwash is measured (spec section 4.5). -/
noncomputable def liftDir (af : Airframe) : Vec3 :=
  ⟨-Real.sin (alphaRad af), 0, Real.cos (alphaRad af)⟩

/-- Modelled from the spec: the influence-coefficient matrix (spec section 4.3):
row jp receives the velocity induced at the control point of panel jp by the
unit horseshoe vortex of panel ip, projected on the normal of panel jp. -/
noncomputable def influence (af : Airframe) :
    Matrix (Fin af.span_count × Fin af.chord_count) (Fin af.span_count × Fin af.chord_count) ℝ :=
  fun jp ip =>
    vdot (horseshoe (boundA af ip) (boundB af ip) (freestream af) (ctrlPt af jp))
      (panelNormal af jp)

/-- Modelled from the spec: right-hand side of the flow-tangency system (spec
section 4.4). -/
noncomputable def rhsVec (af : Airframe) : Fin af.span_count × Fin af.chord_count → ℝ :=
  fun jp => -(vdot (freestream af) (panelNormal af jp))

/-- Modelled from the spec: panel circulations solving the dense flow-tangency
linear system (spec section 4.4). -/
noncomputable def circulation (af : Airframe) : Fin af.span_count × Fin af.chord_count → ℝ :=
  Matrix.mulVec (influence af)⁻¹ (rhsVec af)

/-- Total circulation of a spanwise strip (sum over its chordwise panels). -/
noncomputable def stripGamma (af : Airframe) (i : Fin af.span_count) : ℝ :=
  ∑ j : Fin af.chord_count, circulation af (i, j)

/-- Modelled from the spec: sectional lift of a spanwise strip by Kutta-Joukowski
with unit free-stream density and speed (spec section 4.5). -/
noncomputable def stripLift (af : Airframe) (i : Fin af.span_count) : ℝ :=
  stripGamma af i * dSpan af

/-- Local chord at the midline of a spanwise strip. -/
noncomputable def stripChord (af : Airframe) (i : Fin af.span_count) : ℝ :=
  lofted af (fun r => r.chord) (midY af i.val)

/-- Dynamic pressure for unit free-stream density and speed. -/
noncomputable def qdyn : ℝ := 1 / 2

/-- Modelled from the spec: sectional lift coefficient, the sectional lift
normalized by dynamic pressure and local chord (spec section 4.5). -/
noncomputable def stripCl (af : Airframe) (i : Fin af.span_count) : ℝ :=
  stripLift af i / (qdyn * stripChord af i)

/-- Modelled from the spec: induced downwash at a strip, measured along the
free-stream-normal direction at the strip control points from the influence of
all panels, averaged chordwise (spec section 4.5). -/
noncomputable def stripWash (af : Airframe) (i : Fin af.span_count) : ℝ :=
  (∑ j : Fin af.chord_count, ∑ q : Fin af.span_count × Fin af.chord_count,
    circulation af q *
      vdot (horseshoe (boundA af q) (boundB af q) (freestream af) (ctrlPt af (i, j)))
        (liftDir af)) / af.chord_count

/-- Modelled from the spec: induced angle of a strip, the arctangent of the local
induced downwash over the unit free-stream speed (spec section 4.5). -/
noncomputable def stripAlpha (af : Airframe) (i : Fin af.span_count) : ℝ :=
  Real.arctan (stripWash af i)

/-- Spanwise coordinates of the strip midlines, in increasing strip order. -/
noncomputable def spanCoords (af : Airframe) : List ℝ :=
  (List.range af.span_count).map (fun k => midY af k)

/-- Sectional-lift values per strip, in strip order. -/
noncomputable def liftVals (af : Airframe) : List ℝ :=
  (List.finRange af.span_count).map (fun i => stripLift af i)

/-- Sectional lift-coefficient values per strip, in strip order. -/
noncomputable def clVals (af : Airframe) : List ℝ :=
  (List.finRange af.span_count).map (fun i => stripCl af i)

/-- Induced-angle values per strip, in strip order. -/
noncomputable def alphaVals (af : Airframe) : List ℝ :=
  (List.finRange af.span_count).map (fun i => stripAlpha af i)

/-- Modelled from the spec: trapezoidal quadrature over a list of
(coordinate, value) samples (spec section 4.5). -/
noncomputable def trapz : List (ℝ × ℝ) → ℝ
  | (x1, v1) :: (x2, v2) :: rest => (x2 - x1) * (v1 + v2) / 2 + trapz ((x2, v2) :: rest)
  | _ => 0

/-- Modelled from the spec: total lift coefficient, the trapezoidal sum of
sectional lift over the span normalized by dynamic pressure and reference area
(spec section 4.5). -/
noncomputable def clTotal (af : Airframe) : ℝ :=
  trapz ((spanCoords af).zip (liftVals af)) / (qdyn * af.s_ref)

/-- Modelled from the spec: total induced-drag coefficient, the trapezoidal sum
of sectional lift times induced angle over the span, normalized likewise (spec
section 4.5). -/
noncomputable def cdiTotal (af : Airframe) : ℝ :=
  trapz ((spanCoords af).zip
    (((liftVals af).zip (alphaVals af)).map (fun p => p.1 * p.2))) / (qdyn * af.s_ref)

/-- Modelled from the spec: aspect ratio derived from the supplied reference
quantity and the reference area (spec section 4.5). -/
noncomputable def aspectR (af : Airframe) : ℝ :=
  match af.b_ref with
  | some b => b ^ 2 / af.s_ref
  | none => af.s_ref / (af.c_ref.getD 1) ^ 2

/-- Modelled from the spec: span efficiency factor (spec section 4.5). -/
noncomputable def spanEffV (af : Airframe) : ℝ :=
  clTotal af ^ 2 / (Real.pi * aspectR af * cdiTotal af)

/-- Circulations flattened in panel-index order (row-major by strip). -/
noncomputable def gammaList (af : Airframe) : List ℝ :=
  ((List.finRange af.span_count) ×ˢ (List.finRange af.chord_count)).map
    (fun p => circulation af p)

/-- Modelled from the spec: the immutable Solution record (spec sections 3 and
6): circulation per panel, three distribution fields each a pair of parallel
sequences (spanwise coordinates first, values second), total lift coefficient,
total induced-drag coefficient and span efficiency factor. The Solution class of
the aerolattice package is absent from the repository sources. -/
structure Solution where
  gamma : List ℝ
  lift_distr : List ℝ × List ℝ
  cl_distr : List ℝ × List ℝ
  alpha_i_distr : List ℝ × List ℝ
  cl : ℝ
  cdi : ℝ
  span_eff : ℝ

/-- Modelled from the spec: the two distinct, inspectable failure outcomes of the
solver (spec section 7): geometry-configuration error and numerical-solve error. -/
inductive AirframeError where
  | geometry : AirframeError
  | numerical : AirframeError
deriving DecidableEq

/-- Modelled from the spec: eager assembly of every Solution field from the
current configuration (spec sections 4.5 and 9). -/
noncomputable def buildSolution (af : Airframe) : Solution :=
  { gamma := gammaList af
    lift_distr := (spanCoords af, liftVals af)
    cl_distr := (spanCoords af, clVals af)
    alpha_i_distr := (spanCoords af, alphaVals af)
    cl := clTotal af
    cdi := cdiTotal af
    span_eff := spanEffV af }

/-- Modelled from the spec: the solve entry point (spec sections 4 and 7), absent
from the repository sources. Geometry is validated first and a geometry error is
reported before any numerical work; then the influence matrix is assembled and
the flow-tangency system solved, a singular matrix being reported as a
numerical-solve error; otherwise a complete Solution is returned. -/
noncomputable def solve (af : Airframe) : Except AirframeError Solution :=
  letI := Classical.propDecidable (validConfig af)
  letI := Classical.propDecidable (IsUnit (influence af).det)
  if validConfig af then
    if IsUnit (influence af).det then Except.ok (buildSolution af)
    else Except.error AirframeError.numerical
  else Except.error AirframeError.geometry

theorem solve_ok_elim (af : Airframe) (sol : Solution) (h : solve af = Except.ok sol) :
    validConfig af ∧ IsUnit (influence af).det ∧ sol = buildSolution af := by
  simp only [solve] at h
  by_cases h1 : validConfig af
  · rw [if_pos h1] at h
    by_cases h2 : IsUnit (influence af).det
    · rw [if_pos h2] at h
      exact ⟨h1, h2, (Except.ok.inj h).symm⟩
    · rw [if_neg h2] at h
      exact absurd h (by simp)
  · rw [if_neg h1] at h
    exact absurd h (by simp)

theorem solve_eq_ok (af : Airframe) (h1 : validConfig af) (h2 : IsUnit (influence af).det) :
    solve af = Except.ok (buildSolution af) := by
  simp only [solve]
  rw [if_pos h1, if_pos h2]

theorem solve_eq_geo (af : Airframe) (h1 : ¬ validConfig af) :
    solve af = Except.error AirframeError.geometry := by
  simp only [solve]
  rw [if_neg h1]

theorem solve_eq_num (af : Airframe) (h1 : validConfig af)
    (h2 : ¬ IsUnit (influence af).det) :
    solve af = Except.error AirframeError.numerical := by
  simp only [solve]
  rw [if_pos h1, if_neg h2]

theorem ribYs_length (af : Airframe) : (ribYs af).length = af.ribs.length := by
  simp [ribYs]

theorem valid_first_lt_last (af : Airframe) (h : validConfig af) :
    spanFirst af < spanLast af := by
  obtain ⟨h1, _, h3, _⟩ := h
  have hlen : 2 ≤ (ribYs af).length := by rwa [ribYs_length]
  have hp : (ribYs af).Pairwise (· < ·) := List.chain'_iff_pairwise.mp h3
  have h0 : 0 < (ribYs af).length := by omega
  have hN : (ribYs af).length - 1 < (ribYs af).length := by omega
  have := List.pairwise_iff_getElem.mp hp 0 ((ribYs af).length - 1) h0 hN (by omega)
  rw [spanFirst, spanLast, List.getD_eq_getElem _ _ h0, List.getD_eq_getElem _ _ hN]
  exact this

theorem valid_dSpan_pos (af : Airframe) (h : validConfig af) : 0 < dSpan af := by
  have h1 := valid_first_lt_last af h
  have h2 : (0 : ℝ) < af.span_count := by
    have := h.2.2.2.2.1
    exact_mod_cast this
  exact div_pos (sub_pos.mpr h1) h2

theorem midY_strict_mono (af : Airframe) (h : 0 < dSpan af) (a b : ℕ) (hab : a < b) :
    midY af a < midY af b := by
  unfold midY
  have : (a : ℝ) < b := by exact_mod_cast hab
  have h2 : ((a : ℝ) + 1 / 2) * dSpan af < ((b : ℝ) + 1 / 2) * dSpan af := by
    apply mul_lt_mul_of_pos_right _ h
    linarith
  linarith

theorem spanCoords_pairwise (af : Airframe) (h : 0 < dSpan af) :
    (spanCoords af).Pairwise (· < ·) := by
  unfold spanCoords
  rw [List.pairwise_map]
  exact (List.pairwise_lt_range af.span_count).imp (fun hab => midY_strict_mono af h _ _ hab)

theorem spanCoords_length (af : Airframe) : (spanCoords af).length = af.span_count := by
  simp [spanCoords]

theorem liftVals_length (af : Airframe) : (liftVals af).length = af.span_count := by
  simp [liftVals]

theorem clVals_length (af : Airframe) : (clVals af).length = af.span_count := by
  simp [clVals]

theorem alphaVals_length (af : Airframe) : (alphaVals af).length = af.span_count := by
  simp [alphaVals]

/-- C1: for every valid Airframe configuration, a Solution returned by solve has
every distribution sequence field (sectional lift, sectional lift coefficient,
induced angle, and their spanwise coordinates) of length exactly span_count, and
the spanwise coordinates in those sequences are strictly increasing. -/
theorem solve_distr_lengths_sorted (af : Airframe) (sol : Solution)
    (h : solve af = Except.ok sol) :
    sol.lift_distr.1.length = af.span_count ∧ sol.lift_distr.2.length = af.span_count ∧
    sol.cl_distr.1.length = af.span_count ∧ sol.cl_distr.2.length = af.span_count ∧
    sol.alpha_i_distr.1.length = af.span_count ∧ sol.alpha_i_distr.2.length = af.span_count ∧
    sol.lift_distr.1.Pairwise (· < ·) ∧ sol.cl_distr.1.Pairwise (· < ·) ∧
    sol.alpha_i_distr.1.Pairwise (· < ·) := by
  obtain ⟨h1, _, h3⟩ := solve_ok_elim af sol h
  subst h3
  have hd := valid_dSpan_pos af h1
  have hp := spanCoords_pairwise af hd
  exact ⟨spanCoords_length af, liftVals_length af, spanCoords_length af, clVals_length af,
    spanCoords_length af, alphaVals_length af, hp, hp, hp⟩

/-- C2: solve never produces a partial result: for every input it either returns
a complete Solution or fails entirely with a reported error, and the
numerical-solve failure outcome is distinct from the geometry-configuration
failure outcome. -/
theorem solve_total_outcomes (af : Airframe) :
    ((∃ sol, solve af = Except.ok sol) ∨ solve af = Except.error AirframeError.geometry ∨
      solve af = Except.error AirframeError.numerical) ∧
    AirframeError.geometry ≠ AirframeError.numerical := by
  constructor
  · by_cases h1 : validConfig af
    · by_cases h2 : IsUnit (influence af).det
      · exact Or.inl ⟨buildSolution af, solve_eq_ok af h1 h2⟩
      · exact Or.inr (Or.inr (solve_eq_num af h1 h2))
    · exact Or.inr (Or.inl (solve_eq_geo af h1))
  · intro hc
    exact AirframeError.noConfusion hc

/-- C3: every input with fewer than two ribs, a non-positive chord, spanwise rib
coordinates out of monotonic order, a non-positive reference area, a zero
span_count or chord_count, or both or neither of reference chord and reference
span supplied, is rejected with a geometry-configuration error, before any
numerical work: the outcome does not depend on the influence matrix at all. -/
theorem invalid_geometry_error (af : Airframe)
    (h : af.ribs.length < 2 ∨ (∃ r ∈ af.ribs, r.chord ≤ 0) ∨
      ¬ (ribYs af).Chain' (· < ·) ∨ af.s_ref ≤ 0 ∨ af.span_count = 0 ∨ af.chord_count = 0 ∨
      ¬ (af.c_ref.isSome ↔ af.b_ref.isNone)) :
    solve af = Except.error AirframeError.geometry := by
  apply solve_eq_geo
  intro hv
  obtain ⟨v1, v2, v3, v4, v5, v6, v7⟩ := hv
  rcases h with h | h | h | h | h | h | h
  · omega
  · obtain ⟨r, hr, hc⟩ := h
    exact absurd (v2 r hr) (not_lt.mpr hc)
  · exact h v3
  · exact absurd v4 (not_lt.mpr h)
  · omega
  · omega
  · exact h v7

/-- C5: for every successful solve, the span efficiency factor of the returned
Solution equals the square of its total lift coefficient divided by pi times the
aspect ratio (derived from the reference span and reference area) times its
total induced-drag coefficient. -/
theorem solve_span_eff_eq (af : Airframe) (sol : Solution) (h : solve af = Except.ok sol) :
    sol.span_eff = sol.cl ^ 2 / (Real.pi * aspectR af * sol.cdi) := by
  obtain ⟨_, _, h3⟩ := solve_ok_elim af sol h
  subst h3
  rfl

/-- C6: solve is a pure function of the current configuration: airframes with
equal configuration fields solve identically, and a solve after re-assigning the
angle of attack is independent of any previously assigned angle of attack, with
no cached state surviving the mutation. -/
theorem solve_pure_function (af₁ af₂ : Airframe) (a b : ℝ)
    (hc : af₁.c_ref = af₂.c_ref) (hb : af₁.b_ref = af₂.b_ref) (hs : af₁.s_ref = af₂.s_ref)
    (hsc : af₁.span_count = af₂.span_count) (hcc : af₁.chord_count = af₂.chord_count)
    (hr : af₁.ribs = af₂.ribs) (ha : af₁.aoa = af₂.aoa) :
    solve af₁ = solve af₂ ∧
      solve (setAoa (setAoa af₁ b) a) = solve (setAoa af₁ a) := by
  have heq : af₁ = af₂ := by
    cases af₁; cases af₂; simp_all
  subst heq
  exact ⟨rfl, rfl⟩

/-- C9: the distribution fields lift_distr and cl_distr of a returned Solution
are each a pair of two parallel sequences, the spanwise coordinates first and
the values second, of equal length, rather than one flat sequence of pairs. -/
theorem distr_parallel_sequences (af : Airframe) (sol : Solution)
    (h : solve af = Except.ok sol) :
    sol.lift_distr = (spanCoords af, liftVals af) ∧
    sol.cl_distr = (spanCoords af, clVals af) ∧
    sol.lift_distr.2.length = sol.lift_distr.1.length ∧
    sol.cl_distr.2.length = sol.cl_distr.1.length := by
  obtain ⟨_, _, h3⟩ := solve_ok_elim af sol h
  subst h3
  refine ⟨rfl, rfl, ?_, ?_⟩
  · rw [show (buildSolution af).lift_distr = (spanCoords af, liftVals af) from rfl]
    rw [liftVals_length, spanCoords_length]
  · rw [show (buildSolution af).cl_distr = (spanCoords af, clVals af) from rfl]
    rw [clVals_length, spanCoords_length]

/-- C10: an Airframe is constructed without an angle-of-attack argument (only
reference span, reference area, span_count, chord_count and ribs), construction
succeeds in that state with the angle of attack defaulting to zero, validity is
unaffected by the angle of attack, a later plain assignment sets the angle of
attack, and a solve after the assignment sees exactly the assigned value in the
configuration. -/
theorem mkAirframe_setAoa_solve (b s : ℝ) (sc cc : ℕ) (ribs : List Rib) (a : ℝ) :
    mkAirframe b s sc cc ribs =
      { c_ref := none, b_ref := some b, s_ref := s, span_count := sc, chord_count := cc,
        ribs := ribs, aoa := 0 } ∧
    (setAoa (mkAirframe b s sc cc ribs) a).aoa = a ∧
    (validConfig (setAoa (mkAirframe b s sc cc ribs) a) ↔
      validConfig (mkAirframe b s sc cc ribs)) ∧
    solve (setAoa (mkAirframe b s sc cc ribs) a) =
      solve { c_ref := none, b_ref := some b, s_ref := s, span_count := sc, chord_count := cc,
              ribs := ribs, aoa := a } :=
  ⟨rfl, rfl, Iff.rfl, rfl⟩

/-- Concrete two-rib flat rectangular airframe used as witness configuration:
ribs at spanwise coordinates -1 and 1, both with chord 1 and a common incidence,
reference span 2, reference area 4, one spanwise and one chordwise panel. -/
def afW (inc aoa : ℝ) : Airframe :=
  { c_ref := none, b_ref := some 2, s_ref := 4, span_count := 1, chord_count := 1,
    ribs := [⟨⟨0, -1, 0⟩, 1, inc⟩, ⟨⟨0, 1, 0⟩, 1, inc⟩], aoa := aoa }

theorem afW_valid (inc aoa : ℝ) : validConfig (afW inc aoa) := by
  refine ⟨by simp [afW], ?_, ?_, by norm_num [afW], by norm_num [afW], by norm_num [afW],
    by simp [afW]⟩
  · intro r hr
    simp only [afW, List.mem_cons, List.not_mem_nil, or_false] at hr
    rcases hr with h | h <;> subst h <;> norm_num
  · simp only [ribYs, afW, List.map_cons, List.map_nil]
    refine List.chain'_cons.mpr ⟨by norm_num, ?_⟩
    exact List.chain'_singleton _

theorem afW_ribYs (inc aoa : ℝ) : ribYs (afW inc aoa) = [-1, 1] := by
  simp [ribYs, afW]

theorem afW_spanFirst (inc aoa : ℝ) : spanFirst (afW inc aoa) = -1 := by
  simp [spanFirst, afW_ribYs]

theorem afW_spanLast (inc aoa : ℝ) : spanLast (afW inc aoa) = 1 := by
  simp [spanLast, afW_ribYs]

theorem afW_dSpan (inc aoa : ℝ) : dSpan (afW inc aoa) = 2 := by
  rw [dSpan, afW_spanFirst, afW_spanLast]
  norm_num [afW]

theorem afW_stationY0 (inc aoa : ℝ) : stationY (afW inc aoa) 0 = -1 := by
  rw [stationY, afW_spanFirst, afW_dSpan]
  norm_num

theorem afW_stationY1 (inc aoa : ℝ) : stationY (afW inc aoa) 1 = 1 := by
  rw [stationY, afW_spanFirst, afW_dSpan]
  norm_num

theorem afW_midY0 (inc aoa : ℝ) : midY (afW inc aoa) 0 = 0 := by
  rw [midY, afW_spanFirst, afW_dSpan]
  norm_num

theorem afW_lofted (inc aoa : ℝ) (f : Rib → ℝ) (y : ℝ) (hy : y ≤ 1)
    (hsame : f ⟨⟨0, -1, 0⟩, 1, inc⟩ = f ⟨⟨0, 1, 0⟩, 1, inc⟩) :
    lofted (afW inc aoa) f y = f ⟨⟨0, -1, 0⟩, 1, inc⟩ := by
  unfold lofted afW
  simp only [List.map_cons, List.map_nil]
  rw [interp1, if_pos (by simpa using hy), lerpAt]
  simp only [← hsame]
  ring

theorem afW_stationPt (inc aoa : ℝ) (k : ℕ) (hk : k ≤ 1) (c : ℝ) :
    stationPt (afW inc aoa) k c = ⟨c, stationY (afW inc aoa) k, 0⟩ := by
  have hy : stationY (afW inc aoa) k ≤ 1 := by
    interval_cases k
    · rw [afW_stationY0]; norm_num
    · rw [afW_stationY1]
  unfold stationPt
  rw [afW_lofted inc aoa (fun r => r.pos.x) _ hy rfl,
    afW_lofted inc aoa (fun r => r.chord) _ hy rfl,
    afW_lofted inc aoa (fun r => r.pos.z) _ hy rfl]
  apply Vec3.ext_comp <;> norm_num

/-- Distance from the witness control point to either bound-vortex endpoint. -/
noncomputable def sqS : ℝ := Real.sqrt (5 / 4)

theorem sqS_pos : 0 < sqS := Real.sqrt_pos.mpr (by norm_num)

theorem sqS_gt : 11 / 10 < sqS := by
  rw [sqS, show (11 / 10 : ℝ) = Real.sqrt ((11 / 10) ^ 2) from (Real.sqrt_sq (by norm_num)).symm]
  apply Real.sqrt_lt_sqrt (by norm_num)
  norm_num

theorem afW_quarterFrac (inc aoa : ℝ) (j : Fin 1) :
    quarterFrac (afW inc aoa) j.val = 1 / 4 := by
  have h : j.val = 0 := by omega
  rw [h, quarterFrac]
  norm_num [afW]

theorem afW_threeQuarterFrac (inc aoa : ℝ) (j : Fin 1) :
    threeQuarterFrac (afW inc aoa) j.val = 3 / 4 := by
  have h : j.val = 0 := by omega
  rw [h, threeQuarterFrac]
  norm_num [afW]

theorem afW_boundA (inc aoa : ℝ) (p : Fin 1 × Fin 1) :
    boundA (afW inc aoa) p = ⟨1 / 4, -1, 0⟩ := by
  have h1 : p.1.val = 0 := by omega
  rw [boundA, afW_quarterFrac, h1, afW_stationPt _ _ 0 (by norm_num), afW_stationY0]

theorem afW_boundB (inc aoa : ℝ) (p : Fin 1 × Fin 1) :
    boundB (afW inc aoa) p = ⟨1 / 4, 1, 0⟩ := by
  have h1 : p.1.val = 0 := by omega
  rw [boundB, afW_quarterFrac, h1, afW_stationPt _ _ 1 (by norm_num), afW_stationY1]

theorem afW_ctrlPt (inc aoa : ℝ) (p : Fin 1 × Fin 1) :
    ctrlPt (afW inc aoa) p = ⟨3 / 4, 0, 0⟩ := by
  have h1 : p.1.val = 0 := by omega
  rw [ctrlPt, afW_threeQuarterFrac, h1, afW_stationPt _ _ 0 (by norm_num),
    afW_stationPt _ _ 1 (by norm_num), afW_stationY0, afW_stationY1]
  apply Vec3.ext_comp <;> simp <;> norm_num

theorem afW_panelInc (inc aoa : ℝ) (p : Fin 1 × Fin 1) :
    panelInc (afW inc aoa) p = inc * Real.pi / 180 := by
  have h1 : p.1.val = 0 := by omega
  rw [panelInc, h1, afW_midY0, afW_lofted inc aoa (fun r => r.incidence) _ (by norm_num) rfl]

theorem afW_spanDir (inc aoa : ℝ) (p : Fin 1 × Fin 1) :
    spanDir (afW inc aoa) p = ⟨0, 2, 0⟩ := by
  rw [spanDir, afW_boundA, afW_boundB]
  apply Vec3.ext_comp <;> norm_num

theorem afW_panelNormal (inc aoa : ℝ) (p : Fin 1 × Fin 1) :
    panelNormal (afW inc aoa) p =
      ⟨Real.sin (inc * Real.pi / 180), 0, Real.cos (inc * Real.pi / 180)⟩ := by
  unfold panelNormal chordDir
  rw [afW_panelInc, afW_spanDir]
  have e2 : vcross ⟨Real.cos (inc * Real.pi / 180), 0, -Real.sin (inc * Real.pi / 180)⟩
      ⟨0, 2, 0⟩ =
      ⟨2 * Real.sin (inc * Real.pi / 180), 0, 2 * Real.cos (inc * Real.pi / 180)⟩ := by
    apply Vec3.ext_comp <;> simp [vcross] <;> ring
  rw [e2]
  have e3 : vnorm ⟨2 * Real.sin (inc * Real.pi / 180), 0,
      2 * Real.cos (inc * Real.pi / 180)⟩ = 2 := by
    rw [vnorm, vnormSq, vdot]
    have hsc := Real.sin_sq_add_cos_sq (inc * Real.pi / 180)
    have e4 : 2 * Real.sin (inc * Real.pi / 180) * (2 * Real.sin (inc * Real.pi / 180)) +
        0 * 0 + 2 * Real.cos (inc * Real.pi / 180) * (2 * Real.cos (inc * Real.pi / 180)) =
        (4 : ℝ) := by nlinarith [hsc]
    rw [e4, show (4 : ℝ) = 2 ^ 2 by norm_num, Real.sqrt_sq (by norm_num)]
  rw [vhat, e3]
  apply Vec3.ext_comp <;> simp <;> ring

theorem afW_freestream (inc aoa : ℝ) :
    freestream (afW inc aoa) =
      ⟨Real.cos (aoa * Real.pi / 180), 0, Real.sin (aoa * Real.pi / 180)⟩ := rfl

theorem segVel_W :
    segVel ⟨1 / 4, -1, 0⟩ ⟨1 / 4, 1, 0⟩ ⟨3 / 4, 0, 0⟩ =
      ⟨0, 0, -((2 / sqS + 2 / sqS) / (4 * Real.pi))⟩ := by
  unfold segVel
  have e1 : (⟨3 / 4, 0, 0⟩ : Vec3) - ⟨1 / 4, -1, 0⟩ = ⟨1 / 2, 1, 0⟩ := by
    apply Vec3.ext_comp <;> norm_num
  have e2 : (⟨3 / 4, 0, 0⟩ : Vec3) - ⟨1 / 4, 1, 0⟩ = ⟨1 / 2, -1, 0⟩ := by
    apply Vec3.ext_comp <;> norm_num
  have e3 : (⟨1 / 4, 1, 0⟩ : Vec3) - ⟨1 / 4, -1, 0⟩ = ⟨0, 2, 0⟩ := by
    apply Vec3.ext_comp <;> norm_num
  rw [e1, e2, e3]
  have e4 : vcross ⟨1 / 2, 1, 0⟩ ⟨1 / 2, -1, 0⟩ = ⟨0, 0, -1⟩ := by
    apply Vec3.ext_comp <;> norm_num [vcross]
  rw [e4]
  have e5 : vnormSq ⟨0, 0, (-1 : ℝ)⟩ = 1 := by norm_num [vnormSq, vdot]
  rw [e5, if_neg (by norm_num [epsC])]
  have e6 : vdot ⟨0, 2, 0⟩ ⟨1 / 2, 1, 0⟩ = 2 := by norm_num [vdot]
  have e7 : vdot ⟨0, 2, 0⟩ ⟨1 / 2, -1, 0⟩ = -2 := by norm_num [vdot]
  have e8 : vnorm ⟨1 / 2, 1, 0⟩ = sqS := by
    rw [vnorm, sqS]
    congr 1
    norm_num [vnormSq, vdot]
  have e9 : vnorm ⟨1 / 2, -1, 0⟩ = sqS := by
    rw [vnorm, sqS]
    congr 1
    norm_num [vnormSq, vdot]
  rw [e6, e7, e8, e9]
  apply Vec3.ext_comp <;> simp <;> ring

theorem legVel_W_b (ux uz : ℝ) (h1 : ux ^ 2 + uz ^ 2 = 1) :
    legVel ⟨1 / 4, 1, 0⟩ ⟨ux, 0, uz⟩ ⟨3 / 4, 0, 0⟩ =
      ((1 + ux / 2 / sqS) / (4 * Real.pi * (1 + uz ^ 2 / 4))) • ⟨uz, uz / 2, -ux⟩ := by
  unfold legVel
  have e1 : (⟨3 / 4, 0, 0⟩ : Vec3) - ⟨1 / 4, 1, 0⟩ = ⟨1 / 2, -1, 0⟩ := by
    apply Vec3.ext_comp <;> norm_num
  rw [e1]
  have e2 : vcross ⟨ux, 0, uz⟩ ⟨1 / 2, -1, 0⟩ = ⟨uz, uz / 2, -ux⟩ := by
    apply Vec3.ext_comp <;> simp [vcross] <;> ring
  rw [e2]
  have e3 : vnormSq ⟨uz, uz / 2, -ux⟩ = 1 + uz ^ 2 / 4 := by
    simp [vnormSq, vdot]
    nlinarith [h1]
  rw [e3, if_neg (by norm_num [epsC]; nlinarith [sq_nonneg uz])]
  have e4 : vdot ⟨ux, 0, uz⟩ ⟨1 / 2, -1, 0⟩ = ux / 2 := by
    simp [vdot]
    ring
  have e5 : vnorm ⟨1 / 2, -1, 0⟩ = sqS := by
    rw [vnorm, sqS]
    congr 1
    norm_num [vnormSq, vdot]
  rw [e4, e5]

theorem legVel_W_a (ux uz : ℝ) (h1 : ux ^ 2 + uz ^ 2 = 1) :
    legVel ⟨1 / 4, -1, 0⟩ ⟨ux, 0, uz⟩ ⟨3 / 4, 0, 0⟩ =
      ((1 + ux / 2 / sqS) / (4 * Real.pi * (1 + uz ^ 2 / 4))) • ⟨-uz, uz / 2, ux⟩ := by
  unfold legVel
  have e1 : (⟨3 / 4, 0, 0⟩ : Vec3) - ⟨1 / 4, -1, 0⟩ = ⟨1 / 2, 1, 0⟩ := by
    apply Vec3.ext_comp <;> norm_num
  rw [e1]
  have e2 : vcross ⟨ux, 0, uz⟩ ⟨1 / 2, 1, 0⟩ = ⟨-uz, uz / 2, ux⟩ := by
    apply Vec3.ext_comp <;> simp [vcross] <;> ring
  rw [e2]
  have e3 : vnormSq ⟨-uz, uz / 2, ux⟩ = 1 + uz ^ 2 / 4 := by
    simp [vnormSq, vdot]
    nlinarith [h1]
  rw [e3, if_neg (by norm_num [epsC]; nlinarith [sq_nonneg uz])]
  have e4 : vdot ⟨ux, 0, uz⟩ ⟨1 / 2, 1, 0⟩ = ux / 2 := by
    simp [vdot]
    ring
  have e5 : vnorm ⟨1 / 2, 1, 0⟩ = sqS := by
    rw [vnorm, sqS]
    congr 1
    norm_num [vnormSq, vdot]
  rw [e4, e5]

theorem horseshoe_W (ux uz : ℝ) (h1 : ux ^ 2 + uz ^ 2 = 1) :
    horseshoe ⟨1 / 4, -1, 0⟩ ⟨1 / 4, 1, 0⟩ ⟨ux, 0, uz⟩ ⟨3 / 4, 0, 0⟩ =
      ⟨2 * ((1 + ux / 2 / sqS) / (4 * Real.pi * (1 + uz ^ 2 / 4))) * uz, 0,
       -((2 / sqS + 2 / sqS) / (4 * Real.pi)) -
         2 * ((1 + ux / 2 / sqS) / (4 * Real.pi * (1 + uz ^ 2 / 4))) * ux⟩ := by
  unfold horseshoe
  rw [segVel_W, legVel_W_b ux uz h1, legVel_W_a ux uz h1]
  apply Vec3.ext_comp <;> simp <;> ring

theorem afW_influence (inc aoa : ℝ) (jp ip : Fin 1 × Fin 1) :
    influence (afW inc aoa) jp ip =
      2 * ((1 + Real.cos (aoa * Real.pi / 180) / 2 / sqS) /
          (4 * Real.pi * (1 + Real.sin (aoa * Real.pi / 180) ^ 2 / 4))) *
        Real.sin (aoa * Real.pi / 180) * Real.sin (inc * Real.pi / 180) +
      (-((2 / sqS + 2 / sqS) / (4 * Real.pi)) -
        2 * ((1 + Real.cos (aoa * Real.pi / 180) / 2 / sqS) /
          (4 * Real.pi * (1 + Real.sin (aoa * Real.pi / 180) ^ 2 / 4))) *
        Real.cos (aoa * Real.pi / 180)) * Real.cos (inc * Real.pi / 180) := by
  unfold influence
  rw [afW_boundA, afW_boundB, afW_ctrlPt, afW_freestream, afW_panelNormal,
    horseshoe_W _ _ (Real.cos_sq_add_sin_sq _)]
  simp [vdot]

theorem afW_influence_neg (inc aoa : ℝ)
    (hzero : Real.sin (inc * Real.pi / 180) * Real.sin (aoa * Real.pi / 180) = 0)
    (hcinc : 0 < Real.cos (inc * Real.pi / 180))
    (hcaoa : 0 < Real.cos (aoa * Real.pi / 180)) (jp ip : Fin 1 × Fin 1) :
    influence (afW inc aoa) jp ip < 0 := by
  rw [afW_influence]
  have hS := sqS_pos
  have hpi := Real.pi_pos
  have hZ : 0 < (2 / sqS + 2 / sqS) / (4 * Real.pi) := by positivity
  have hKnum : 0 < 1 + Real.cos (aoa * Real.pi / 180) / 2 / sqS := by
    have h := div_pos (div_pos hcaoa (by norm_num : (0 : ℝ) < 2)) hS
    linarith
  have hKden : 0 < 4 * Real.pi * (1 + Real.sin (aoa * Real.pi / 180) ^ 2 / 4) := by positivity
  have hK : 0 < (1 + Real.cos (aoa * Real.pi / 180) / 2 / sqS) /
      (4 * Real.pi * (1 + Real.sin (aoa * Real.pi / 180) ^ 2 / 4)) := div_pos hKnum hKden
  have h1 : 2 * ((1 + Real.cos (aoa * Real.pi / 180) / 2 / sqS) /
      (4 * Real.pi * (1 + Real.sin (aoa * Real.pi / 180) ^ 2 / 4))) *
      Real.sin (aoa * Real.pi / 180) * Real.sin (inc * Real.pi / 180) =
      2 * ((1 + Real.cos (aoa * Real.pi / 180) / 2 / sqS) /
      (4 * Real.pi * (1 + Real.sin (aoa * Real.pi / 180) ^ 2 / 4))) *
      (Real.sin (inc * Real.pi / 180) * Real.sin (aoa * Real.pi / 180)) := by ring
  rw [h1, hzero, mul_zero, zero_add]
  apply mul_neg_of_neg_of_pos _ hcinc
  have h3 := mul_pos hK hcaoa
  nlinarith

instance : Unique (Fin 1 × Fin 1) where
  default := (0, 0)
  uniq := by
    intro p
    cases p
    congr <;> exact Subsingleton.elim _ _

theorem det_one_panel (A : Matrix (Fin 1 × Fin 1) (Fin 1 × Fin 1) ℝ) :
    A.det = A (0, 0) (0, 0) := by
  rw [Matrix.det_unique]
  rfl

theorem afW_det (inc aoa : ℝ) :
    (influence (afW inc aoa)).det =
      influence (afW inc aoa) ((0, 0) : Fin 1 × Fin 1) ((0, 0) : Fin 1 × Fin 1) :=
  det_one_panel (influence (afW inc aoa))

theorem afW_isUnit (inc aoa : ℝ)
    (hzero : Real.sin (inc * Real.pi / 180) * Real.sin (aoa * Real.pi / 180) = 0)
    (hcinc : 0 < Real.cos (inc * Real.pi / 180))
    (hcaoa : 0 < Real.cos (aoa * Real.pi / 180)) :
    IsUnit (influence (afW inc aoa)).det := by
  rw [afW_det]
  exact isUnit_iff_ne_zero.mpr (ne_of_lt (afW_influence_neg inc aoa hzero hcinc hcaoa _ _))

theorem afW_solve (inc aoa : ℝ)
    (hzero : Real.sin (inc * Real.pi / 180) * Real.sin (aoa * Real.pi / 180) = 0)
    (hcinc : 0 < Real.cos (inc * Real.pi / 180))
    (hcaoa : 0 < Real.cos (aoa * Real.pi / 180)) :
    solve (afW inc aoa) = Except.ok (buildSolution (afW inc aoa)) :=
  solve_eq_ok _ (afW_valid inc aoa) (afW_isUnit inc aoa hzero hcinc hcaoa)

theorem afW00_solve : solve (afW 0 0) = Except.ok (buildSolution (afW 0 0)) := by
  refine afW_solve 0 0 ?_ ?_ ?_ <;> norm_num

theorem afW45_solve : solve (afW 45 0) = Except.ok (buildSolution (afW 45 0)) := by
  refine afW_solve 45 0 ?_ ?_ ?_
  · norm_num
  · rw [show (45 : ℝ) * Real.pi / 180 = Real.pi / 4 by ring, Real.cos_pi_div_four]
    positivity
  · norm_num

theorem afW05_solve : solve (afW 0 5) = Except.ok (buildSolution (afW 0 5)) := by
  refine afW_solve 0 5 ?_ ?_ ?_
  · norm_num
  · norm_num
  · rw [show (5 : ℝ) * Real.pi / 180 = Real.pi / 36 by ring]
    apply Real.cos_pos_of_mem_Ioo
    constructor
    · have := Real.pi_pos
      linarith
    · have := Real.pi_pos
      linarith

/-- Witness for C1: the claim theorem applied at a concrete valid two-rib
configuration whose solve succeeds. -/
theorem solve_distr_lengths_sorted_witness :
    (buildSolution (afW 0 0)).lift_distr.1.length = (afW 0 0).span_count ∧
    (buildSolution (afW 0 0)).lift_distr.2.length = (afW 0 0).span_count ∧
    (buildSolution (afW 0 0)).cl_distr.1.length = (afW 0 0).span_count ∧
    (buildSolution (afW 0 0)).cl_distr.2.length = (afW 0 0).span_count ∧
    (buildSolution (afW 0 0)).alpha_i_distr.1.length = (afW 0 0).span_count ∧
    (buildSolution (afW 0 0)).alpha_i_distr.2.length = (afW 0 0).span_count ∧
    (buildSolution (afW 0 0)).lift_distr.1.Pairwise (· < ·) ∧
    (buildSolution (afW 0 0)).cl_distr.1.Pairwise (· < ·) ∧
    (buildSolution (afW 0 0)).alpha_i_distr.1.Pairwise (· < ·) :=
  solve_distr_lengths_sorted (afW 0 0) (buildSolution (afW 0 0)) afW00_solve

/-- Witness for C3: a concrete single-element rib list is rejected with a
geometry error. -/
def afBad : Airframe :=
  { c_ref := none, b_ref := some 2, s_ref := 4, span_count := 1, chord_count := 1,
    ribs := [], aoa := 0 }

/-- Witness for C3: the claim theorem applied at a concrete invalid input. -/
theorem invalid_geometry_error_witness :
    solve afBad = Except.error AirframeError.geometry :=
  invalid_geometry_error afBad (Or.inl (by norm_num [afBad]))

/-- Witness for C5: the claim theorem applied at a concrete successful solve. -/
theorem solve_span_eff_eq_witness :
    (buildSolution (afW 0 0)).span_eff =
      (buildSolution (afW 0 0)).cl ^ 2 /
        (Real.pi * aspectR (afW 0 0) * (buildSolution (afW 0 0)).cdi) :=
  solve_span_eff_eq (afW 0 0) (buildSolution (afW 0 0)) afW00_solve

/-- Witness for C6: the claim theorem applied at a concrete configuration with a
pair of angle-of-attack assignments. -/
theorem solve_pure_function_witness :
    solve (afW 0 0) = solve (afW 0 0) ∧
      solve (setAoa (setAoa (afW 0 0) 7) 3) = solve (setAoa (afW 0 0) 3) :=
  solve_pure_function (afW 0 0) (afW 0 0) 3 7 rfl rfl rfl rfl rfl rfl rfl

/-- Witness for C9: the claim theorem applied at a concrete successful solve. -/
theorem distr_parallel_sequences_witness :
    (buildSolution (afW 0 0)).lift_distr = (spanCoords (afW 0 0), liftVals (afW 0 0)) ∧
    (buildSolution (afW 0 0)).cl_distr = (spanCoords (afW 0 0), clVals (afW 0 0)) ∧
    (buildSolution (afW 0 0)).lift_distr.2.length =
      (buildSolution (afW 0 0)).lift_distr.1.length ∧
    (buildSolution (afW 0 0)).cl_distr.2.length =
      (buildSolution (afW 0 0)).cl_distr.1.length :=
  distr_parallel_sequences (afW 0 0) (buildSolution (afW 0 0)) afW00_solve

theorem lofted_zero (af : Airframe) (f : Rib → ℝ) (hf : ∀ r ∈ af.ribs, f r = 0) (y : ℝ) :
    lofted af f y = 0 := by
  apply interp1_all_zero
  intro p hp
  simp only [List.mem_map] at hp
  obtain ⟨rb, hrb, hrfl⟩ := hp
  rw [← hrfl]
  exact hf rb hrb

theorem panelNormal_x_zero (af : Airframe) (hf : ∀ r ∈ af.ribs, r.incidence = 0)
    (p : Fin af.span_count × Fin af.chord_count) : (panelNormal af p).x = 0 := by
  have h1 : panelInc af p = 0 := by
    rw [panelInc, lofted_zero af _ hf]
    ring
  have h2 : chordDir af p = ⟨1, 0, 0⟩ := by
    rw [chordDir, h1]
    apply Vec3.ext_comp <;> simp
  rw [panelNormal, h2, vhat]
  simp [vcross]

theorem rhsVec_zero_of_flat (af : Airframe) (hinc : ∀ r ∈ af.ribs, r.incidence = 0)
    (haoa : af.aoa = 0) (jp : Fin af.span_count × Fin af.chord_count) :
    rhsVec af jp = 0 := by
  have hfs : freestream af = ⟨1, 0, 0⟩ := by
    rw [freestream, alphaRad, haoa]
    apply Vec3.ext_comp <;> simp
  rw [rhsVec]
  rw [hfs]
  have hx := panelNormal_x_zero af hinc jp
  simp [vdot, hx]

theorem circulation_zero (af : Airframe)
    (h : ∀ jp : Fin af.span_count × Fin af.chord_count, rhsVec af jp = 0)
    (p : Fin af.span_count × Fin af.chord_count) : circulation af p = 0 := by
  rw [circulation]
  have h2 : rhsVec af = (0 : (Fin af.span_count × Fin af.chord_count) → ℝ) :=
    funext (fun jp => h jp)
  rw [h2, Matrix.mulVec_zero]
  rfl

theorem trapz_all_zero : ∀ l : List (ℝ × ℝ), (∀ p ∈ l, p.2 = 0) → trapz l = 0
  | [], _ => rfl
  | [p], _ => rfl
  | (x1, v1) :: (x2, v2) :: rest, h => by
    rw [trapz]
    have h1 := h (x1, v1) (by simp)
    have h2 := h (x2, v2) (by simp)
    simp only at h1 h2
    rw [trapz_all_zero ((x2, v2) :: rest) (fun p hp => h p (by simp at hp ⊢; tauto)), h1, h2]
    ring

/-- C8 (amended): an uncambered wing whose ribs all have incidence zero, solved
at angle of attack zero, yields a Solution with total lift coefficient exactly
zero and sectional lift exactly zero at every spanwise station. -/
theorem zero_incidence_zero_aoa_zero_lift (af : Airframe) (sol : Solution)
    (hinc : ∀ r ∈ af.ribs, r.incidence = 0) (haoa : af.aoa = 0)
    (h : solve af = Except.ok sol) :
    sol.cl = 0 ∧ ∀ v ∈ sol.lift_distr.2, v = 0 := by
  obtain ⟨h1, h2, h3⟩ := solve_ok_elim af sol h
  subst h3
  have hg : ∀ p, circulation af p = 0 :=
    circulation_zero af (rhsVec_zero_of_flat af hinc haoa)
  have hlift : ∀ i, stripLift af i = 0 := by
    intro i
    rw [stripLift, stripGamma]
    simp [hg]
  have hmem : ∀ v ∈ liftVals af, v = 0 := by
    intro v hv
    simp only [liftVals, List.mem_map] at hv
    obtain ⟨i, _, hi⟩ := hv
    rw [← hi]
    exact hlift i
  constructor
  · show clTotal af = 0
    rw [clTotal, trapz_all_zero, zero_div]
    intro p hp
    obtain ⟨a, b⟩ := p
    have hz := List.of_mem_zip hp
    exact hmem b hz.2
  · intro v hv
    exact hmem v hv

/-- Witness for the amended C8 at a concrete flat configuration. -/
theorem zero_incidence_zero_aoa_zero_lift_witness :
    (buildSolution (afW 0 0)).cl = 0 ∧ ∀ v ∈ (buildSolution (afW 0 0)).lift_distr.2, v = 0 :=
  zero_incidence_zero_aoa_zero_lift (afW 0 0) (buildSolution (afW 0 0))
    (by
      intro r hr
      simp only [afW, List.mem_cons, List.not_mem_nil, or_false] at hr
      rcases hr with h | h <;> subst h <;> rfl)
    rfl afW00_solve

theorem one_panel_system (A : Matrix (Fin 1 × Fin 1) (Fin 1 × Fin 1) ℝ)
    (b : Fin 1 × Fin 1 → ℝ) (h : IsUnit A.det) :
    A (0, 0) (0, 0) * Matrix.mulVec A⁻¹ b (0, 0) = b (0, 0) := by
  have hmv : Matrix.mulVec A (Matrix.mulVec A⁻¹ b) = b := by
    rw [Matrix.mulVec_mulVec, Matrix.mul_nonsing_inv _ h, Matrix.one_mulVec]
  have happ := congrFun hmv ((0, 0) : Fin 1 × Fin 1)
  have hsum : Matrix.mulVec A (Matrix.mulVec A⁻¹ b) (0, 0) =
      A (0, 0) (0, 0) * Matrix.mulVec A⁻¹ b (0, 0) := by
    rw [Matrix.mulVec, Matrix.dotProduct, Finset.univ_unique, Finset.sum_singleton]
    rfl
  rw [← hsum]
  exact happ

theorem hz45 : Real.sin (45 * Real.pi / 180) * Real.sin (0 * Real.pi / 180) = 0 := by
  norm_num

theorem hc45 : 0 < Real.cos (45 * Real.pi / 180) := by
  rw [show (45 : ℝ) * Real.pi / 180 = Real.pi / 4 by ring, Real.cos_pi_div_four]
  positivity

theorem hu45 : 0 < Real.cos (0 * Real.pi / 180) := by
  norm_num

theorem afW45_A :
    influence (afW 45 0) ((0, 0) : Fin 1 × Fin 1) ((0, 0) : Fin 1 × Fin 1) =
      -((5 / sqS + 2) / (4 * Real.pi)) * (Real.sqrt 2 / 2) := by
  rw [afW_influence 45 0]
  rw [show (0 : ℝ) * Real.pi / 180 = 0 by ring,
    show (45 : ℝ) * Real.pi / 180 = Real.pi / 4 by ring]
  rw [Real.sin_zero, Real.cos_zero, Real.sin_pi_div_four, Real.cos_pi_div_four]
  ring

theorem afW45_b :
    rhsVec (afW 45 0) ((0, 0) : Fin 1 × Fin 1) = -(Real.sqrt 2 / 2) := by
  show -(vdot (freestream (afW 45 0)) (panelNormal (afW 45 0) ((0, 0) : Fin 1 × Fin 1))) = _
  rw [afW_freestream, afW_panelNormal]
  rw [show (0 : ℝ) * Real.pi / 180 = 0 by ring,
    show (45 : ℝ) * Real.pi / 180 = Real.pi / 4 by ring]
  rw [Real.sin_zero, Real.cos_zero, Real.sin_pi_div_four, Real.cos_pi_div_four]
  simp [vdot]

theorem afW45_gamma :
    circulation (afW 45 0) ((0, 0) : Fin 1 × Fin 1) * ((5 / sqS + 2) / (4 * Real.pi)) = 1 := by
  have key : influence (afW 45 0) ((0, 0) : Fin 1 × Fin 1) ((0, 0) : Fin 1 × Fin 1) *
      circulation (afW 45 0) ((0, 0) : Fin 1 × Fin 1) =
      rhsVec (afW 45 0) ((0, 0) : Fin 1 × Fin 1) :=
    one_panel_system (influence (afW 45 0)) (rhsVec (afW 45 0))
      (afW_isUnit 45 0 hz45 hc45 hu45)
  rw [afW45_A, afW45_b] at key
  have hs2 : Real.sqrt 2 / 2 ≠ 0 := by positivity
  have h2 : circulation (afW 45 0) ((0, 0) : Fin 1 × Fin 1) *
      ((5 / sqS + 2) / (4 * Real.pi)) * (Real.sqrt 2 / 2) = 1 * (Real.sqrt 2 / 2) := by
    linear_combination (-1 : ℝ) * key
  exact mul_right_cancel₀ hs2 h2

theorem sum_fin_one (f : Fin 1 → ℝ) : ∑ j : Fin 1, f j = f 0 := by
  rw [Finset.univ_unique, Finset.sum_singleton]
  rfl

theorem afW45_lift_value :
    (buildSolution (afW 45 0)).lift_distr.2.getD 0 0 =
      circulation (afW 45 0) ((0, 0) : Fin 1 × Fin 1) * 2 := by
  have h1 : (buildSolution (afW 45 0)).lift_distr.2 =
      [stripLift (afW 45 0) ((0 : Fin 1))] := rfl
  rw [h1, List.getD_cons_zero]
  have h2 : stripGamma (afW 45 0) ((0 : Fin 1)) =
      circulation (afW 45 0) ((0, 0) : Fin 1 × Fin 1) :=
    sum_fin_one (fun j => circulation (afW 45 0) (((0 : Fin 1), j) : Fin 1 × Fin 1))
  rw [stripLift, h2, afW_dSpan]

/-- Counterexample for C8: a wing whose ribs all share the same nonzero incidence
(45 degrees), solved at angle of attack 0, returns a Solution whose sectional
lift at its only spanwise station exceeds 3, which is not approximately zero on
any reading; a common nonzero incidence therefore does not give zero lift. -/
theorem common_incidence_nonzero_lift :
    (∀ r ∈ (afW 45 0).ribs, r.incidence = 45) ∧ (afW 45 0).aoa = 0 ∧
    ∃ sol, solve (afW 45 0) = Except.ok sol ∧ 3 < sol.lift_distr.2.getD 0 0 := by
  refine ⟨?_, rfl, buildSolution (afW 45 0), afW45_solve, ?_⟩
  · intro r hr
    simp only [afW, List.mem_cons, List.not_mem_nil, or_false] at hr
    rcases hr with h | h <;> subst h <;> rfl
  · rw [afW45_lift_value]
    have hSpos := sqS_pos
    have hSgt := sqS_gt
    have hpi3 := Real.pi_gt_three
    have hpipos := Real.pi_pos
    have hD0 : 0 < (5 / sqS + 2) / (4 * Real.pi) := by
      apply div_pos _ (by linarith)
      have := div_pos (by norm_num : (0 : ℝ) < 5) hSpos
      linarith
    have h5 : 5 / sqS < 50 / 11 := by
      rw [div_lt_div_iff hSpos (by norm_num : (0 : ℝ) < 11)]
      nlinarith
    have hD : (5 / sqS + 2) / (4 * Real.pi) < 2 / 3 := by
      rw [div_lt_div_iff (by linarith : (0 : ℝ) < 4 * Real.pi) (by norm_num : (0 : ℝ) < 3)]
      nlinarith
    have hG : circulation (afW 45 0) ((0, 0) : Fin 1 × Fin 1) =
        1 / ((5 / sqS + 2) / (4 * Real.pi)) :=
      (eq_div_iff (ne_of_gt hD0)).mpr afW45_gamma
    rw [hG, show 1 / ((5 / sqS + 2) / (4 * Real.pi)) * 2 =
      2 / ((5 / sqS + 2) / (4 * Real.pi)) by ring, lt_div_iff hD0]
    linarith

/-- Spanwise mirror of a rib: position reflected in y, chord and incidence kept. -/
def mirrorRib (r : Rib) : Rib := ⟨⟨r.pos.x, -r.pos.y, r.pos.z⟩, r.chord, r.incidence⟩

/-- A rib list symmetric about the spanwise origin: reading it backwards gives
the mirrored ribs. -/
def symmetricRibs (af : Airframe) : Prop := af.ribs.reverse = af.ribs.map mirrorRib

theorem ribYs_mirror (af : Airframe) (h : symmetricRibs af) :
    (ribYs af).reverse = (ribYs af).map Neg.neg := by
  rw [ribYs, ← List.map_reverse, h, List.map_map, List.map_map]
  rfl

theorem spanLast_mirror (af : Airframe) (h : symmetricRibs af) :
    spanLast af = -spanFirst af := by
  by_cases hne : ribYs af = []
  · simp [spanFirst, spanLast, hne]
  · have hlen : 0 < (ribYs af).length := List.length_pos.mpr hne
    have hl1 : 0 < (ribYs af).reverse.length := by simpa using hlen
    have hl2 : 0 < ((ribYs af).map Neg.neg).length := by simpa using hlen
    rw [spanFirst, spanLast, List.getD_eq_getElem _ _ (by omega),
      List.getD_eq_getElem _ _ hlen]
    have h2 := congrArg (fun l : List ℝ => l[0]?) (ribYs_mirror af h)
    simp only [List.getElem?_eq_getElem hl1, List.getElem?_eq_getElem hl2] at h2
    have h3 := Option.some.inj h2
    rw [List.getElem_reverse, List.getElem_map] at h3
    simpa using h3

theorem stationY_mirror (af : Airframe) (hsym : symmetricRibs af)
    (hn : af.span_count ≠ 0) (k : ℕ) (hk : k ≤ af.span_count) :
    stationY af (af.span_count - k) = -stationY af k := by
  rw [stationY, stationY, dSpan, spanLast_mirror af hsym]
  have hc : ((af.span_count - k : ℕ) : ℝ) = (af.span_count : ℝ) - k := by
    rw [Nat.cast_sub hk]
  rw [hc]
  have hnz : ((af.span_count : ℝ)) ≠ 0 := Nat.cast_ne_zero.mpr hn
  field_simp
  ring

theorem midY_mirror (af : Airframe) (hsym : symmetricRibs af)
    (hn : af.span_count ≠ 0) (k : ℕ) (hk : k < af.span_count) :
    midY af (af.span_count - 1 - k) = -midY af k := by
  rw [midY, midY, dSpan, spanLast_mirror af hsym]
  have hc : ((af.span_count - 1 - k : ℕ) : ℝ) = (af.span_count : ℝ) - 1 - k := by
    have he : af.span_count - 1 - k = af.span_count - (1 + k) := by omega
    rw [he, Nat.cast_sub (by omega)]
    push_cast
    ring
  rw [hc]
  have hnz : ((af.span_count : ℝ)) ≠ 0 := Nat.cast_ne_zero.mpr hn
  field_simp
  ring

theorem span_total (af : Airframe) (hn : af.span_count ≠ 0) :
    (af.span_count : ℝ) * dSpan af = spanLast af - spanFirst af := by
  rw [dSpan]
  have hnz : ((af.span_count : ℝ)) ≠ 0 := Nat.cast_ne_zero.mpr hn
  field_simp

theorem stationY_range (af : Airframe) (hn : af.span_count ≠ 0) (hd : 0 ≤ dSpan af)
    (k : ℕ) (hk : k ≤ af.span_count) :
    spanFirst af ≤ stationY af k ∧ stationY af k ≤ spanLast af := by
  have hnd := span_total af hn
  constructor
  · rw [stationY]
    have h1 : 0 ≤ (k : ℝ) * dSpan af := mul_nonneg (by positivity) hd
    linarith
  · rw [stationY]
    have hkr : (k : ℝ) ≤ af.span_count := by exact_mod_cast hk
    have h2 : (k : ℝ) * dSpan af ≤ (af.span_count : ℝ) * dSpan af :=
      mul_le_mul_of_nonneg_right hkr hd
    linarith

theorem midY_range (af : Airframe) (hn : af.span_count ≠ 0) (hd : 0 ≤ dSpan af)
    (k : ℕ) (hk : k < af.span_count) :
    spanFirst af ≤ midY af k ∧ midY af k ≤ spanLast af := by
  have hnd := span_total af hn
  constructor
  · rw [midY]
    have h1 : 0 ≤ ((k : ℝ) + 1 / 2) * dSpan af := mul_nonneg (by positivity) hd
    linarith
  · rw [midY]
    have hkr : (k : ℝ) + 1 / 2 ≤ af.span_count := by
      have : (k : ℝ) + 1 ≤ af.span_count := by exact_mod_cast hk
      linarith
    have h2 : ((k : ℝ) + 1 / 2) * dSpan af ≤ (af.span_count : ℝ) * dSpan af :=
      mul_le_mul_of_nonneg_right hkr hd
    linarith

theorem spanFirst_getElem (af : Airframe) (hl : 0 < af.ribs.length) :
    spanFirst af = af.ribs[0].pos.y := by
  rw [spanFirst, ribYs, List.getD_eq_getElem _ _ (by simpa using hl), List.getElem_map]

theorem spanLast_getElem (af : Airframe) (hl : 0 < af.ribs.length) :
    spanLast af = af.ribs[af.ribs.length - 1].pos.y := by
  have hlN : af.ribs.length - 1 < af.ribs.length := by omega
  rw [spanLast, ribYs]
  rw [List.getD_eq_getElem _ _ (by simpa using hlN)]
  simp

theorem lofted_mirror (af : Airframe) (hsym : symmetricRibs af)
    (hlen : 2 ≤ af.ribs.length) (hsort : (ribYs af).Chain' (· < ·))
    (f : Rib → ℝ) (hf : ∀ r, f (mirrorRib r) = f r) (y : ℝ)
    (h0 : spanFirst af ≤ y) (h1 : y ≤ spanLast af) :
    lofted af f (-y) = lofted af f y := by
  have hplen : 2 ≤ (af.ribs.map (fun r => (r.pos.y, f r))).length := by simpa using hlen
  apply interp1_self_mirror _ ?_ ?_ hplen
  · -- head bound
    have hl0 : 0 < af.ribs.length := by omega
    rw [List.getElem_map]
    rw [← spanFirst_getElem af hl0]
    exact h0
  · -- last bound
    have hlN : af.ribs.length - 1 < af.ribs.length := by omega
    have hre : ((af.ribs.map fun r => (r.pos.y, f r)).length - 1) = af.ribs.length - 1 := by
      simp
    simp only [hre, List.getElem_map]
    rw [← spanLast_getElem af (by omega)]
    exact h1
  · -- self-mirrored node list
    rw [← List.map_reverse, hsym, List.map_map, List.map_map]
    apply List.map_congr_left
    intro r _
    simp only [Function.comp_apply, mirrorRib, mirrorPt, Prod.mk.injEq]
    refine ⟨by trivial, hf r⟩
  · -- strictly sorted node coordinates
    have he : (af.ribs.map (fun r => (r.pos.y, f r))).map Prod.fst = ribYs af := by
      rw [List.map_map]
      rfl
    rw [he]
    exact List.chain'_iff_pairwise.mp hsort

theorem vec_add_comm (a b : Vec3) : a + b = b + a := by
  apply Vec3.ext_comp <;> simp <;> ring

theorem stationPt_mirror (af : Airframe) (hsym : symmetricRibs af) (hval : validConfig af)
    (k : ℕ) (hk : k ≤ af.span_count) (c : ℝ) :
    stationPt af (af.span_count - k) c = mirrorV (stationPt af k c) := by
  have hn : af.span_count ≠ 0 := by
    have := hval.2.2.2.2.1
    omega
  have hd : 0 ≤ dSpan af := le_of_lt (valid_dSpan_pos af hval)
  have hr := stationY_range af hn hd k hk
  have hst := stationY_mirror af hsym hn k hk
  unfold stationPt
  rw [hst,
    lofted_mirror af hsym hval.1 hval.2.2.1 (fun r => r.pos.x) (fun r => rfl) _ hr.1 hr.2,
    lofted_mirror af hsym hval.1 hval.2.2.1 (fun r => r.chord) (fun r => rfl) _ hr.1 hr.2,
    lofted_mirror af hsym hval.1 hval.2.2.1 (fun r => r.pos.z) (fun r => rfl) _ hr.1 hr.2]
  apply Vec3.ext_comp <;> simp

theorem boundA_mirror (af : Airframe) (hsym : symmetricRibs af) (hval : validConfig af)
    (i : Fin af.span_count) (j : Fin af.chord_count) :
    boundA af (Fin.rev i, j) = mirrorV (boundB af (i, j)) := by
  show stationPt af (Fin.rev i).val (quarterFrac af j.val) =
    mirrorV (stationPt af (i.val + 1) (quarterFrac af j.val))
  have h1 : (Fin.rev i).val = af.span_count - (i.val + 1) := by
    rw [Fin.val_rev]
  rw [h1]
  exact stationPt_mirror af hsym hval (i.val + 1) (by have := i.isLt; omega) _

theorem boundB_mirror (af : Airframe) (hsym : symmetricRibs af) (hval : validConfig af)
    (i : Fin af.span_count) (j : Fin af.chord_count) :
    boundB af (Fin.rev i, j) = mirrorV (boundA af (i, j)) := by
  show stationPt af ((Fin.rev i).val + 1) (quarterFrac af j.val) =
    mirrorV (stationPt af i.val (quarterFrac af j.val))
  have h1 : (Fin.rev i).val + 1 = af.span_count - i.val := by
    rw [Fin.val_rev]
    have := i.isLt
    omega
  rw [h1]
  exact stationPt_mirror af hsym hval i.val (by have := i.isLt; omega) _

theorem ctrlPt_mirror (af : Airframe) (hsym : symmetricRibs af) (hval : validConfig af)
    (i : Fin af.span_count) (j : Fin af.chord_count) :
    ctrlPt af (Fin.rev i, j) = mirrorV (ctrlPt af (i, j)) := by
  show (1 / 2 : ℝ) • (stationPt af (Fin.rev i).val (threeQuarterFrac af j.val) +
      stationPt af ((Fin.rev i).val + 1) (threeQuarterFrac af j.val)) =
    mirrorV ((1 / 2 : ℝ) • (stationPt af i.val (threeQuarterFrac af j.val) +
      stationPt af (i.val + 1) (threeQuarterFrac af j.val)))
  have h2 : (Fin.rev i).val + 1 = af.span_count - i.val := by
    rw [Fin.val_rev]
    have := i.isLt
    omega
  have h1 : (Fin.rev i).val = af.span_count - (i.val + 1) := by
    rw [Fin.val_rev]
  rw [h2, h1,
    stationPt_mirror af hsym hval (i.val + 1) (by have := i.isLt; omega) _,
    stationPt_mirror af hsym hval i.val (by have := i.isLt; omega) _,
    ← mirrorV_add, ← mirrorV_smul,
    vec_add_comm (stationPt af (i.val + 1) (threeQuarterFrac af j.val))
      (stationPt af i.val (threeQuarterFrac af j.val))]

theorem panelInc_mirror (af : Airframe) (hsym : symmetricRibs af) (hval : validConfig af)
    (i : Fin af.span_count) (j : Fin af.chord_count) :
    panelInc af (Fin.rev i, j) = panelInc af (i, j) := by
  have hn : af.span_count ≠ 0 := by
    have := hval.2.2.2.2.1
    omega
  have hd : 0 ≤ dSpan af := le_of_lt (valid_dSpan_pos af hval)
  have hr := midY_range af hn hd i.val i.isLt
  show lofted af (fun r => r.incidence) (midY af (Fin.rev i).val) * Real.pi / 180 = _
  have h1 : (Fin.rev i).val = af.span_count - 1 - i.val := by
    rw [Fin.val_rev]
    omega
  rw [h1, midY_mirror af hsym hn i.val i.isLt,
    lofted_mirror af hsym hval.1 hval.2.2.1 (fun r => r.incidence) (fun r => rfl) _ hr.1 hr.2]
  rfl

theorem chordDir_mirror (af : Airframe) (hsym : symmetricRibs af) (hval : validConfig af)
    (i : Fin af.span_count) (j : Fin af.chord_count) :
    chordDir af (Fin.rev i, j) = chordDir af (i, j) := by
  unfold chordDir
  rw [panelInc_mirror af hsym hval i j]

theorem spanDir_mirror (af : Airframe) (hsym : symmetricRibs af) (hval : validConfig af)
    (i : Fin af.span_count) (j : Fin af.chord_count) :
    spanDir af (Fin.rev i, j) = -(mirrorV (spanDir af (i, j))) := by
  unfold spanDir
  rw [boundA_mirror af hsym hval i j, boundB_mirror af hsym hval i j]
  apply Vec3.ext_comp <;> simp <;> ring

theorem panelNormal_mirror (af : Airframe) (hsym : symmetricRibs af) (hval : validConfig af)
    (i : Fin af.span_count) (j : Fin af.chord_count) :
    panelNormal af (Fin.rev i, j) = mirrorV (panelNormal af (i, j)) := by
  unfold panelNormal
  rw [chordDir_mirror af hsym hval i j, spanDir_mirror af hsym hval i j,
    vcross_y_zero_neg_mirror _ _ rfl, vhat_mirror]

theorem influence_mirror (af : Airframe) (hsym : symmetricRibs af) (hval : validConfig af)
    (jp ip : Fin af.span_count × Fin af.chord_count) :
    influence af (Fin.rev jp.1, jp.2) (Fin.rev ip.1, ip.2) = influence af jp ip := by
  have hu : mirrorV (freestream af) = freestream af := mirrorV_of_y_zero _ rfl
  show vdot (horseshoe (boundA af (Fin.rev ip.1, ip.2)) (boundB af (Fin.rev ip.1, ip.2))
      (freestream af) (ctrlPt af (Fin.rev jp.1, jp.2))) (panelNormal af (Fin.rev jp.1, jp.2)) = _
  rw [boundA_mirror af hsym hval ip.1 ip.2, boundB_mirror af hsym hval ip.1 ip.2,
    ctrlPt_mirror af hsym hval jp.1 jp.2, panelNormal_mirror af hsym hval jp.1 jp.2,
    horseshoe_mirror _ _ _ _ hu, vdot_mirror]
  rfl

theorem rhsVec_mirror (af : Airframe) (hsym : symmetricRibs af) (hval : validConfig af)
    (jp : Fin af.span_count × Fin af.chord_count) :
    rhsVec af (Fin.rev jp.1, jp.2) = rhsVec af jp := by
  have hu : mirrorV (freestream af) = freestream af := mirrorV_of_y_zero _ rfl
  show -(vdot (freestream af) (panelNormal af (Fin.rev jp.1, jp.2))) = _
  rw [panelNormal_mirror af hsym hval jp.1 jp.2]
  conv_lhs => rw [← hu]
  rw [vdot_mirror]
  rfl

/-- The spanwise reversal of panel indices, as an equivalence. -/
def revPanel (n m : ℕ) : (Fin n × Fin m) ≃ (Fin n × Fin m) where
  toFun p := (Fin.rev p.1, p.2)
  invFun p := (Fin.rev p.1, p.2)
  left_inv p := by
    obtain ⟨a, b⟩ := p
    simp
  right_inv p := by
    obtain ⟨a, b⟩ := p
    simp

theorem circulation_mirror (af : Airframe) (hsym : symmetricRibs af) (hval : validConfig af)
    (hdet : IsUnit (influence af).det)
    (p : Fin af.span_count × Fin af.chord_count) :
    circulation af (Fin.rev p.1, p.2) = circulation af p := by
  have hAG : Matrix.mulVec (influence af) (circulation af) = rhsVec af := by
    rw [circulation, Matrix.mulVec_mulVec, Matrix.mul_nonsing_inv _ hdet, Matrix.one_mulVec]
  have hA2 : Matrix.mulVec (influence af)
      (fun q => circulation af (Fin.rev q.1, q.2)) = rhsVec af := by
    funext k
    obtain ⟨k1, k2⟩ := k
    show (∑ q : Fin af.span_count × Fin af.chord_count,
        influence af (k1, k2) q * circulation af (Fin.rev q.1, q.2)) = rhsVec af (k1, k2)
    have hstep : ∀ q : Fin af.span_count × Fin af.chord_count,
        influence af (k1, k2) ((revPanel af.span_count af.chord_count) q) *
          circulation af (Fin.rev ((revPanel af.span_count af.chord_count) q).1,
            ((revPanel af.span_count af.chord_count) q).2) =
        influence af (Fin.rev k1, k2) q * circulation af q := by
      intro q
      obtain ⟨q1, q2⟩ := q
      show influence af (k1, k2) (Fin.rev q1, q2) *
          circulation af (Fin.rev (Fin.rev q1), q2) = _
      rw [Fin.rev_rev]
      have h1 := influence_mirror af hsym hval (Fin.rev k1, k2) (q1, q2)
      dsimp only at h1
      rw [Fin.rev_rev] at h1
      rw [h1]
    have e1 : (∑ q : Fin af.span_count × Fin af.chord_count,
        influence af (k1, k2) q * circulation af (Fin.rev q.1, q.2)) =
        ∑ q : Fin af.span_count × Fin af.chord_count,
        influence af (k1, k2) ((revPanel af.span_count af.chord_count) q) *
          circulation af (Fin.rev ((revPanel af.span_count af.chord_count) q).1,
            ((revPanel af.span_count af.chord_count) q).2) :=
      (Equiv.sum_comp (revPanel af.span_count af.chord_count)
        (fun q => influence af (k1, k2) q * circulation af (Fin.rev q.1, q.2))).symm
    have e2 : (∑ q : Fin af.span_count × Fin af.chord_count,
        influence af (k1, k2) ((revPanel af.span_count af.chord_count) q) *
          circulation af (Fin.rev ((revPanel af.span_count af.chord_count) q).1,
            ((revPanel af.span_count af.chord_count) q).2)) =
        ∑ q : Fin af.span_count × Fin af.chord_count,
        influence af (Fin.rev k1, k2) q * circulation af q :=
      Finset.sum_congr rfl (fun q _ => hstep q)
    rw [e1, e2]
    have h2 : (∑ q : Fin af.span_count × Fin af.chord_count,
        influence af (Fin.rev k1, k2) q * circulation af q) =
        rhsVec af (Fin.rev k1, k2) := congrFun hAG (Fin.rev k1, k2)
    rw [h2]
    have h3 := rhsVec_mirror af hsym hval (k1, k2)
    dsimp only at h3
    exact h3
  have hinj : (fun q : Fin af.span_count × Fin af.chord_count =>
      circulation af (Fin.rev q.1, q.2)) = circulation af := by
    have h1 : Matrix.mulVec (influence af)⁻¹ (Matrix.mulVec (influence af)
        (fun q : Fin af.span_count × Fin af.chord_count =>
          circulation af (Fin.rev q.1, q.2))) =
        Matrix.mulVec (influence af)⁻¹
          (Matrix.mulVec (influence af) (circulation af)) := by
      rw [hAG, hA2]
    rwa [Matrix.mulVec_mulVec, Matrix.mulVec_mulVec, Matrix.nonsing_inv_mul _ hdet,
      Matrix.one_mulVec, Matrix.one_mulVec] at h1
  exact congrFun hinj p

theorem stripLift_mirror (af : Airframe) (hsym : symmetricRibs af) (hval : validConfig af)
    (hdet : IsUnit (influence af).det) (i : Fin af.span_count) :
    stripLift af (Fin.rev i) = stripLift af i := by
  rw [stripLift, stripLift, stripGamma, stripGamma]
  congr 1
  apply Finset.sum_congr rfl
  intro j _
  have hg := circulation_mirror af hsym hval hdet (i, j)
  dsimp only at hg
  exact hg

theorem stripChord_mirror (af : Airframe) (hsym : symmetricRibs af) (hval : validConfig af)
    (i : Fin af.span_count) : stripChord af (Fin.rev i) = stripChord af i := by
  have hn : af.span_count ≠ 0 := by
    have := hval.2.2.2.2.1
    omega
  have hd : 0 ≤ dSpan af := le_of_lt (valid_dSpan_pos af hval)
  have hr := midY_range af hn hd i.val i.isLt
  rw [stripChord, stripChord]
  have h1 : (Fin.rev i).val = af.span_count - 1 - i.val := by
    rw [Fin.val_rev]
    omega
  rw [h1, midY_mirror af hsym hn i.val i.isLt,
    lofted_mirror af hsym hval.1 hval.2.2.1 (fun r => r.chord) (fun r => rfl) _ hr.1 hr.2]

theorem stripCl_mirror (af : Airframe) (hsym : symmetricRibs af) (hval : validConfig af)
    (hdet : IsUnit (influence af).det) (i : Fin af.span_count) :
    stripCl af (Fin.rev i) = stripCl af i := by
  rw [stripCl, stripCl, stripLift_mirror af hsym hval hdet i, stripChord_mirror af hsym hval i]

theorem stripWash_mirror (af : Airframe) (hsym : symmetricRibs af) (hval : validConfig af)
    (hdet : IsUnit (influence af).det) (i : Fin af.span_count) :
    stripWash af (Fin.rev i) = stripWash af i := by
  rw [stripWash, stripWash]
  congr 1
  apply Finset.sum_congr rfl
  intro j _
  have hu : mirrorV (freestream af) = freestream af := mirrorV_of_y_zero _ rfl
  have hl : mirrorV (liftDir af) = liftDir af := mirrorV_of_y_zero _ rfl
  have hcp := ctrlPt_mirror af hsym hval i j
  have hstep : ∀ q : Fin af.span_count × Fin af.chord_count,
      circulation af ((revPanel af.span_count af.chord_count) q) *
        vdot (horseshoe (boundA af ((revPanel af.span_count af.chord_count) q))
          (boundB af ((revPanel af.span_count af.chord_count) q)) (freestream af)
          (ctrlPt af (Fin.rev i, j))) (liftDir af) =
      circulation af q *
        vdot (horseshoe (boundA af q) (boundB af q) (freestream af)
          (ctrlPt af (i, j))) (liftDir af) := by
    intro q
    obtain ⟨q1, q2⟩ := q
    show circulation af (Fin.rev q1, q2) *
        vdot (horseshoe (boundA af (Fin.rev q1, q2)) (boundB af (Fin.rev q1, q2))
          (freestream af) (ctrlPt af (Fin.rev i, j))) (liftDir af) = _
    rw [boundA_mirror af hsym hval q1 q2, boundB_mirror af hsym hval q1 q2, hcp,
      horseshoe_mirror _ _ _ _ hu]
    conv_lhs => rw [← hl]
    rw [vdot_mirror]
    have hg := circulation_mirror af hsym hval hdet (q1, q2)
    dsimp only at hg
    rw [hg]
  calc (∑ q : Fin af.span_count × Fin af.chord_count,
      circulation af q * vdot (horseshoe (boundA af q) (boundB af q) (freestream af)
        (ctrlPt af (Fin.rev i, j))) (liftDir af))
      = ∑ q : Fin af.span_count × Fin af.chord_count,
        circulation af ((revPanel af.span_count af.chord_count) q) *
          vdot (horseshoe (boundA af ((revPanel af.span_count af.chord_count) q))
            (boundB af ((revPanel af.span_count af.chord_count) q)) (freestream af)
            (ctrlPt af (Fin.rev i, j))) (liftDir af) :=
      (Equiv.sum_comp (revPanel af.span_count af.chord_count)
        (fun q => circulation af q * vdot (horseshoe (boundA af q) (boundB af q)
          (freestream af) (ctrlPt af (Fin.rev i, j))) (liftDir af))).symm
    _ = ∑ q : Fin af.span_count × Fin af.chord_count,
        circulation af q * vdot (horseshoe (boundA af q) (boundB af q) (freestream af)
          (ctrlPt af (i, j))) (liftDir af) :=
      Finset.sum_congr rfl (fun q _ => hstep q)

theorem stripAlpha_mirror (af : Airframe) (hsym : symmetricRibs af) (hval : validConfig af)
    (hdet : IsUnit (influence af).det) (i : Fin af.span_count) :
    stripAlpha af (Fin.rev i) = stripAlpha af i := by
  rw [stripAlpha, stripAlpha, stripWash_mirror af hsym hval hdet i]

theorem spanCoords_getD (af : Airframe) (k : ℕ) (hk : k < af.span_count) :
    (spanCoords af).getD k 0 = midY af k := by
  rw [spanCoords, List.getD_eq_getElem _ _ (by simpa using hk), List.getElem_map,
    List.getElem_range]

theorem liftVals_getD (af : Airframe) (k : ℕ) (hk : k < af.span_count) :
    (liftVals af).getD k 0 = stripLift af ⟨k, hk⟩ := by
  rw [liftVals, List.getD_eq_getElem _ _ (by simpa using hk), List.getElem_map,
    List.getElem_finRange]
  congr 1

theorem alphaVals_getD (af : Airframe) (k : ℕ) (hk : k < af.span_count) :
    (alphaVals af).getD k 0 = stripAlpha af ⟨k, hk⟩ := by
  rw [alphaVals, List.getD_eq_getElem _ _ (by simpa using hk), List.getElem_map,
    List.getElem_finRange]
  congr 1

/-- C7: for every Airframe built from ribs symmetric about the spanwise origin
(mirrored chord, incidence and position in y), at a nonzero angle of attack and
zero sideslip (the model has none), the sectional-lift distribution and the
induced-angle distribution of the returned Solution are symmetric about the
origin: the value at the station whose spanwise coordinate is the negation of
that of station k (namely station span_count - 1 - k) equals the value at
station k exactly. -/
theorem solve_symmetric_wing (af : Airframe) (sol : Solution)
    (hsym : af.ribs.reverse = af.ribs.map mirrorRib) (haoa : af.aoa ≠ 0)
    (h : solve af = Except.ok sol) (k : ℕ) (hk : k < af.span_count) :
    sol.lift_distr.1.getD (af.span_count - 1 - k) 0 = -(sol.lift_distr.1.getD k 0) ∧
    sol.lift_distr.2.getD (af.span_count - 1 - k) 0 = sol.lift_distr.2.getD k 0 ∧
    sol.alpha_i_distr.2.getD (af.span_count - 1 - k) 0 = sol.alpha_i_distr.2.getD k 0 := by
  obtain ⟨hval, hdet, h3⟩ := solve_ok_elim af sol h
  subst h3
  have hn : af.span_count ≠ 0 := by
    have := hval.2.2.2.2.1
    omega
  have hk2 : af.span_count - 1 - k < af.span_count := by omega
  have hrev : (⟨af.span_count - 1 - k, hk2⟩ : Fin af.span_count) = Fin.rev ⟨k, hk⟩ := by
    apply Fin.ext
    rw [Fin.val_rev]
    simp
    omega
  refine ⟨?_, ?_, ?_⟩
  · show (spanCoords af).getD (af.span_count - 1 - k) 0 = -((spanCoords af).getD k 0)
    rw [spanCoords_getD af _ hk2, spanCoords_getD af _ hk]
    exact midY_mirror af hsym hn k hk
  · show (liftVals af).getD (af.span_count - 1 - k) 0 = (liftVals af).getD k 0
    rw [liftVals_getD af _ hk2, liftVals_getD af _ hk, hrev]
    exact stripLift_mirror af hsym hval hdet ⟨k, hk⟩
  · show (alphaVals af).getD (af.span_count - 1 - k) 0 = (alphaVals af).getD k 0
    rw [alphaVals_getD af _ hk2, alphaVals_getD af _ hk, hrev]
    exact stripAlpha_mirror af hsym hval hdet ⟨k, hk⟩

theorem afW05_symm : (afW 0 5).ribs.reverse = (afW 0 5).ribs.map mirrorRib := by
  show ([⟨⟨0, -1, 0⟩, 1, 0⟩, ⟨⟨0, 1, 0⟩, 1, 0⟩] : List Rib).reverse =
    ([⟨⟨0, -1, 0⟩, 1, 0⟩, ⟨⟨0, 1, 0⟩, 1, 0⟩] : List Rib).map mirrorRib
  simp only [List.reverse_cons, List.reverse_nil, List.nil_append, List.cons_append,
    List.map_cons, List.map_nil, mirrorRib]
  norm_num

/-- Witness for C7: the claim theorem applied at a concrete symmetric two-rib
configuration at five degrees angle of attack. -/
theorem solve_symmetric_wing_witness :
    (buildSolution (afW 0 5)).lift_distr.1.getD ((afW 0 5).span_count - 1 - 0) 0 =
      -((buildSolution (afW 0 5)).lift_distr.1.getD 0 0) ∧
    (buildSolution (afW 0 5)).lift_distr.2.getD ((afW 0 5).span_count - 1 - 0) 0 =
      (buildSolution (afW 0 5)).lift_distr.2.getD 0 0 ∧
    (buildSolution (afW 0 5)).alpha_i_distr.2.getD ((afW 0 5).span_count - 1 - 0) 0 =
      (buildSolution (afW 0 5)).alpha_i_distr.2.getD 0 0 :=
  solve_symmetric_wing (afW 0 5) (buildSolution (afW 0 5)) afW05_symm
    (by norm_num [afW]) afW05_solve 0 (by norm_num [afW])
